import Mathlib

/-!
# Verification of the SharePoint Excel node's append / upsert row engines

A shallow embedding of the row-reconciliation core of the
`n8n-nodes-sharepoint-excel` package: the data-mode record resolution
(`getRowData`), the upsert engine (`upsertRows.execute`, with
`getKeyColumns`, `createKey`, the key-index scan and the per-record
update-or-append loop) and the append engine (`appendRows.execute`, with its
one-time header bootstrap).

Modelling conventions:
* JS scalar cell values are `Value` (string, integer number, boolean, null);
  `valueToString` is JS `String(·)` on these.
* JS objects used as records are association lists `List (String × Value)`;
  JS object / `Map` assignment is modelled by consing the new binding in
  front, which is lookup-equivalent to overwriting.
* The worksheet is a `List` of rows, each row a `List Value`, addressed with
  1-based row/column numbers; a missing cell reads as `Value.null`, exactly
  as the workbook library reports empty cells.
* `JSON.parse` of the raw-mode `rowData` parameter is an external runtime
  facility; its outcome is supplied in the environment as an
  `Except String RawJson` (parse failure message, or the parsed array /
  object of records).
* The one workbook download, the data-row scan and the one upload are
  recorded as trace events `Ev.load`, `Ev.scan`, `Ev.save` at the exact
  program points where the source performs them.
-/

set_option maxHeartbeats 1000000

deriving instance DecidableEq for Except

namespace SpExcel

/-- A scalar cell / record value: JS `string | number | boolean | null`
(numbers restricted to integers, which is all the claims exercise). -/
inductive Value
  | str (s : String)
  | num (n : Int)
  | boolean (b : Bool)
  | null
deriving DecidableEq, Repr

/-- JS `String(v)` on a scalar value. -/
def valueToString : Value → String
  | .str s => s
  | .num n => toString n
  | .boolean b => if b then "true" else "false"
  | .null => "null"

/-- A flat record (JS object): ordered association list of column name to
value.  Plain JS objects cannot hold duplicate keys; lookup takes the first
(most recently consed) binding, matching JS property semantics. -/
abbrev Record := List (String × Value)

/-- One worksheet row: cell values by 0-based list position for 1-based
column numbers; absent positions read as `null`. -/
abbrev Row := List Value

/-- A worksheet: rows by 0-based list position for 1-based row numbers. -/
abbrev Sheet := List Row

/-- Mapping `name -> 1-based column position`, as built from the header row. -/
abbrev HeaderMap := List (String × Nat)

/-- Read cell `c` (1-based) of a row; cells beyond the row's extent are
empty (`null`). -/
def getCell (row : Row) (c : Nat) : Value :=
  if c = 0 then .null else row.getD (c - 1) .null

/-- Row `r` (1-based) of a sheet; rows beyond the extent are blank. -/
def getSheetRow (s : Sheet) (r : Nat) : Row :=
  if r = 0 then [] else s.getD (r - 1) []

/-- Pad a row with empty cells up to length `n`. -/
def padTo (row : Row) (n : Nat) : Row :=
  row ++ List.replicate (n - row.length) Value.null

/-- Write cell `c` (1-based) of a row, extending it if needed. -/
def setCellR (row : Row) (c : Nat) (v : Value) : Row :=
  (padTo row c).set (c - 1) v

/-- Write cell `(r, c)` (1-based) of a sheet, creating rows as the workbook
library does when a row object beyond the current extent is written. -/
def setCell (s : Sheet) (r : Nat) (c : Nat) (v : Value) : Sheet :=
  let s' := s ++ List.replicate (r - s.length) ([] : Row)
  s'.set (r - 1) (setCellR (s'.getD (r - 1) []) c v)

/-- Largest column position assigned in a sparse row buffer. -/
def maxCol (buf : List (Nat × Value)) : Nat :=
  buf.foldl (fun m p => Nat.max m p.1) 0

/-- Turn the sparse `newRow` buffer (`newRow[colIdx] = value`) into a
materialised row, as `worksheet.addRow(newRow)` does: positions `1..maxCol`
take their assigned value, unassigned positions are empty. -/
def materialize (buf : List (Nat × Value)) : Row :=
  (List.range (maxCol buf)).map (fun i => ((buf.lookup (i + 1)).getD .null))

/-- The `worksheet.addRow(buffer)` call: the materialised buffer becomes a new last
row. -/
def appendRow (s : Sheet) (buf : List (Nat × Value)) : Sheet :=
  s ++ [materialize buf]

/-- The non-empty header-row cells with their 1-based column numbers and
their `String(cell.value)` rendering (`eachCell({includeEmpty: false})`). -/
def headerEntriesAux : Nat → Row → List (Nat × String)
  | _, [] => []
  | c, v :: rest =>
      if v = .null then headerEntriesAux (c + 1) rest
      else (c, valueToString v) :: headerEntriesAux (c + 1) rest

/-- Header entries of a (header) row, columns ascending from 1. -/
def headerEntries (row : Row) : List (Nat × String) :=
  headerEntriesAux 1 row

/-- The loop `headers.forEach((h, idx) => if (h) headerMap[h] = idx)`: build the
header-to-column map, skipping empty-string names; later columns shadow
earlier ones with the same name. -/
def headerMapOf (row : Row) : HeaderMap :=
  (headerEntries row).foldl
    (fun hm p => if p.2 = "" then hm else (p.2, p.1) :: hm) []

/-- JS `String.prototype.trim` on the whitespace the claims exercise. -/
def trimWs (s : String) : String :=
  String.mk
    (((s.toList.dropWhile Char.isWhitespace).reverse.dropWhile
      Char.isWhitespace).reverse)

/-- The test `headers.some((h) => h && h.trim() !== '')`: the append engine's
headers-exist test. -/
def rowHasHeaders (row : Row) : Bool :=
  (headerEntries row).any (fun p => !(p.2 == "") && !(trimWs p.2 == ""))

/-- Resolution of `options.headerRow || 1` (`0` is falsy in JS). -/
def resolveHeaderRow : Option Nat → Nat
  | none => 1
  | some 0 => 1
  | some (n + 1) => n + 1

/-- The shape of a successfully parsed raw-mode `rowData` JSON string: an
array of records or a single record object. -/
inductive RawJson
  | arr (rs : List Record)
  | obj (r : Record)
deriving DecidableEq, Repr

/-- The per-item slice of the host parameter store that the engines read:
the item's own fields (`item.json`), the manual-mode resource-mapper value
(`columns.value`, absent or a record), and the already-run `JSON.parse`
outcome of the raw-mode `rowData` string parameter. -/
structure ItemEnv where
  json : Record
  columnsValue : Option Record
  rawParsed : Except String RawJson
deriving DecidableEq, Repr

/-- The validation errors (`NodeOperationError`) the two engines raise. -/
inductive UErr
  | noColumnValues (itemIndex : Nat)
  | invalidJson (itemIndex : Nat) (msg : String)
  | unknownDataMode (itemIndex : Nat) (mode : String)
  | noMatchingColumns
  | keyColumnRequired
  | keyColumnNotFound (col : String)
  | missingKeyValue (itemIndex : Nat) (col : String)
deriving DecidableEq, Repr

/-- Trace events at the engines' external interaction points. -/
inductive Ev
  | load
  | scan
  | save
deriving DecidableEq, Repr

/-- The `getRowData` resolver: resolve one input item into its record list according to
the data mode (shared verbatim by the append and upsert sources). -/
def getRowData (itemIndex : Nat) (item : ItemEnv) (dataMode : String) :
    Except UErr (List Record) :=
  if dataMode = "autoMap" then .ok [item.json]
  else if dataMode = "manual" then
    match item.columnsValue with
    | none => .error (.noColumnValues itemIndex)
    | some r =>
        if r.isEmpty then .error (.noColumnValues itemIndex) else .ok [r]
  else if dataMode = "raw" then
    match item.rawParsed with
    | .error msg => .error (.invalidJson itemIndex msg)
    | .ok (.arr rs) => .ok rs
    | .ok (.obj r) => .ok [r]
  else .error (.unknownDataMode itemIndex dataMode)

/-- Resolve every item in order (the record streams the loops consume). -/
def resolveItems (dataMode : String) : Nat → List ItemEnv →
    Except UErr (List (List Record))
  | _, [] => .ok []
  | i, it :: rest => do
      let rs ← getRowData i it dataMode
      let rss ← resolveItems dataMode (i + 1) rest
      .ok (rs :: rss)

/-- One component of the composite key, `String(rowData[col] ?? '')`. -/
def keyPart (rowData : Record) (col : String) : String :=
  match rowData.lookup col with
  | none => ""
  | some .null => ""
  | some v => valueToString v

/-- The `createKey` helper: composite key from a record over the key columns, joined
by `"|"`. -/
def createKey (rowData : Record) (keyColumns : List String) : String :=
  String.intercalate "|" (keyColumns.map (keyPart rowData))

/-- The all-empty composite key, `keyColumns.map(() => '').join('|')`. -/
def emptyKeyOf (keyColumns : List String) : String :=
  String.intercalate "|" (keyColumns.map (fun _ => ""))

/-- The full parameter environment of one upsert invocation. -/
structure UpsertEnv where
  sheetName : String
  dataMode : String
  headerRowOpt : Option Nat
  keyColumnParam : String
  matchingColumns : List String
  items : List ItemEnv
  sheet : Sheet
deriving DecidableEq, Repr

/-- The `getKeyColumns` helper: the key columns used for matching, validated per data
mode (this runs before the workbook download in the source). -/
def getKeyColumns (env : UpsertEnv) : Except UErr (List String) :=
  if env.dataMode = "manual" then
    if env.matchingColumns.isEmpty then .error .noMatchingColumns
    else .ok env.matchingColumns
  else
    if env.keyColumnParam = "" then .error .keyColumnRequired
    else .ok [env.keyColumnParam]

/-- One data row of the key-index scan: read the key columns' cells into a
record, build the composite key, and index it unless it is empty or
all-components-empty; a later row shadows an earlier one with the same key,
as `Map.set` overwrites. -/
def indexStep (s : Sheet) (hm : HeaderMap) (keyColumns : List String)
    (idx : List (String × Nat)) (rowNum : Nat) : List (String × Nat) :=
  let row := getSheetRow s rowNum
  let rowData : Record :=
    keyColumns.map (fun col => (col, getCell row ((hm.lookup col).getD 0)))
  let key := createKey rowData keyColumns
  if key ≠ "" ∧ key ≠ emptyKeyOf keyColumns then (key, rowNum) :: idx
  else idx

/-- The `existingRows` index: scan every data row from `headerRow + 1` to the sheet's
last row into the key index. -/
def buildIndex (s : Sheet) (hm : HeaderMap) (keyColumns : List String)
    (headerRow : Nat) : List (String × Nat) :=
  (List.range' (headerRow + 1) (s.length - headerRow)).foldl
    (indexStep s hm keyColumns) []

/-- The derived, invocation-constant context of the upsert record loop. -/
structure UpsertCtx where
  hm : HeaderMap
  keyColumns : List String
  index : List (String × Nat)
deriving DecidableEq, Repr

/-- The test `rowData[keyCol] === undefined || rowData[keyCol] === null`. -/
def keyMissing (rowData : Record) (col : String) : Bool :=
  match rowData.lookup col with
  | none => true
  | some .null => true
  | some _ => false

/-- Update an existing row in place: for each record entry whose key is in
the header map, overwrite that cell of the matched row. -/
def applyUpdate (s : Sheet) (hm : HeaderMap) (rowNum : Nat) (rowData : Record) :
    Sheet :=
  rowData.foldl
    (fun acc kv =>
      match hm.lookup kv.1 with
      | some c => setCell acc rowNum c kv.2
      | none => acc)
    s

/-- The sparse new-row buffer: for each record entry whose key is in the
header map, assign its value at the mapped column; unmapped keys are
skipped. -/
def buildNewRow (hm : HeaderMap) (rowData : Record) : List (Nat × Value) :=
  rowData.foldl
    (fun buf kv =>
      match hm.lookup kv.1 with
      | some c => (c, kv.2) :: buf
      | none => buf)
    []

/-- One record of the upsert loop: validate the key values, then either
update the indexed row or append a new one.  A validation failure leaves
the state untouched. -/
def stepRecord (ctx : UpsertCtx) (itemIndex : Nat) (st : Sheet × Nat × Nat)
    (rowData : Record) : (Sheet × Nat × Nat) × Option UErr :=
  match ctx.keyColumns.find? (fun col => keyMissing rowData col) with
  | some col => (st, some (.missingKeyValue itemIndex col))
  | none =>
      let key := createKey rowData ctx.keyColumns
      match ctx.index.lookup key with
      | some rowNum =>
          ((applyUpdate st.1 ctx.hm rowNum rowData, st.2.1 + 1, st.2.2), none)
      | none =>
          ((appendRow st.1 (buildNewRow ctx.hm rowData), st.2.1, st.2.2 + 1),
            none)

/-- The inner `for (const rowData of rowsToUpsert)` loop. -/
def processRecords (ctx : UpsertCtx) (itemIndex : Nat) :
    (Sheet × Nat × Nat) → List Record → (Sheet × Nat × Nat) × Option UErr
  | st, [] => (st, none)
  | st, r :: rs =>
      match stepRecord ctx itemIndex st r with
      | (st', none) => processRecords ctx itemIndex st' rs
      | (st', some e) => (st', some e)

/-- The outer `for (let i = 0; i < items.length; i++)` loop of upsert. -/
def processItems (ctx : UpsertCtx) (dataMode : String) :
    List ItemEnv → Nat → (Sheet × Nat × Nat) →
    (Sheet × Nat × Nat) × Option UErr
  | [], _, st => (st, none)
  | it :: rest, i, st =>
      match getRowData i it dataMode with
      | .error e => (st, some e)
      | .ok rs =>
          match processRecords ctx i st rs with
          | (st', none) => processItems ctx dataMode rest (i + 1) st'
          | (st', some e) => (st', some e)

/-- The upsert output record `{rowsUpdated, rowsAppended, sheet}`. -/
structure UpsertResult where
  rowsUpdated : Nat
  rowsAppended : Nat
  sheet : String
deriving DecidableEq, Repr

/-- Everything observable about one upsert invocation: the interaction
trace, the final in-memory sheet (even after an error), and the outcome. -/
structure UpsertRun where
  trace : List Ev
  sheet : Sheet
  result : Except UErr UpsertResult
deriving DecidableEq, Repr

/-- The `upsertRows.execute` engine: resolve/validate key columns, download the
workbook, read the headers, validate the key columns against them, scan the
data rows into the key index, run the record loop over all items, and save
once at the end. -/
def upsertExecute (env : UpsertEnv) : UpsertRun :=
  let headerRow := resolveHeaderRow env.headerRowOpt
  match getKeyColumns env with
  | .error e => ⟨[], env.sheet, .error e⟩
  | .ok keyColumns =>
      let sheet := env.sheet
      let hm := headerMapOf (getSheetRow sheet headerRow)
      match keyColumns.find? (fun c => (hm.lookup c).isNone) with
      | some c => ⟨[Ev.load], sheet, .error (.keyColumnNotFound c)⟩
      | none =>
          let index := buildIndex sheet hm keyColumns headerRow
          match processItems ⟨hm, keyColumns, index⟩ env.dataMode env.items 0
              (sheet, 0, 0) with
          | (st, none) =>
              ⟨[Ev.load, Ev.scan, Ev.save], st.1,
                .ok ⟨st.2.1, st.2.2, env.sheetName⟩⟩
          | (st, some e) => ⟨[Ev.load, Ev.scan], st.1, .error e⟩

/-- The derived upsert context of an environment (defaulting to the empty
context when key-column resolution itself fails). -/
def ctxOf (env : UpsertEnv) : UpsertCtx :=
  match getKeyColumns env with
  | .error _ => ⟨[], [], []⟩
  | .ok keyColumns =>
      let headerRow := resolveHeaderRow env.headerRowOpt
      let hm := headerMapOf (getSheetRow env.sheet headerRow)
      ⟨hm, keyColumns, buildIndex env.sheet hm keyColumns headerRow⟩

/-- Does the record's composite key hit the pre-scan index? -/
def matchedB (ctx : UpsertCtx) (rowData : Record) : Bool :=
  (ctx.index.lookup (createKey rowData ctx.keyColumns)).isSome

/-- Does the record's composite key miss the pre-scan index (so the record
is appended)? -/
def freshB (ctx : UpsertCtx) (rowData : Record) : Bool :=
  !(matchedB ctx rowData)

/-- Is an `Except` outcome a success? -/
def exOk {ε α : Type} : Except ε α → Bool
  | .ok _ => true
  | .error _ => false

/-- The full parameter environment of one append invocation. -/
structure AppendEnv where
  sheetName : String
  dataMode : String
  headerRowOpt : Option Nat
  items : List ItemEnv
  sheet : Sheet
deriving DecidableEq, Repr

/-- The append output record `{rowsAdded, sheet}`. -/
structure AppendResult where
  rowsAdded : Nat
  sheet : String
deriving DecidableEq, Repr

/-- Everything observable about one append invocation, including the header
map the run ended with. -/
structure AppendRun where
  trace : List Ev
  sheet : Sheet
  headerMap : HeaderMap
  result : Except UErr AppendResult
deriving DecidableEq, Repr

/-- Keys of the first resolved record (`Object.keys(rowsToAdd[0])`). -/
def headKeys (rs : List (List (String × Value))) : List String :=
  (rs.headD []).map Prod.fst

/-- Closed form of the header map the bootstrap builds: key number `j`
(0-based) of `ks` maps to column `c + j`. -/
def bootMap : List String → Nat → HeaderMap
  | [], _ => []
  | k :: ks, c => bootMap ks (c + 1) ++ [(k, c)]

/-- The header bootstrap: write each key into the header row at columns
`1..N` in key order and record it in the header map. -/
def bootstrapHeaders (headerRow : Nat) :
    List String → Nat → (Sheet × HeaderMap) → (Sheet × HeaderMap)
  | [], _, p => p
  | k :: ks, c, p =>
      bootstrapHeaders headerRow ks (c + 1)
        (setCell p.1 headerRow c (.str k), (k, c) :: p.2)

/-- The append item loop: at item 0 either bootstrap headers (blank header
row and a non-empty first record list) or adopt the pre-read header map;
then append every record of the item, counting rows. -/
def appendLoop (dataMode : String) (headerRow : Nat) (hasHeaders : Bool)
    (hmExisting : HeaderMap) :
    List ItemEnv → Nat → Sheet → HeaderMap → Nat →
    (Sheet × HeaderMap × Nat) × Option UErr
  | [], _, s, hm, total => ((s, hm, total), none)
  | it :: rest, i, s, hm, total =>
      match getRowData i it dataMode with
      | .error e => ((s, hm, total), some e)
      | .ok rs =>
          let p : Sheet × HeaderMap :=
            if hasHeaders = false ∧ i = 0 ∧ rs ≠ [] then
              bootstrapHeaders headerRow (headKeys rs) 1 (s, [])
            else if i = 0 then (s, hmExisting)
            else (s, hm)
          let s1 := rs.foldl (fun acc r => appendRow acc (buildNewRow p.2 r)) p.1
          appendLoop dataMode headerRow hasHeaders hmExisting rest (i + 1) s1
            p.2 (total + rs.length)

/-- The `appendRows.execute` engine: download the workbook, read the header row once,
run the item loop (with the one-time header bootstrap at item 0), and save
once at the end. -/
def appendExecute (env : AppendEnv) : AppendRun :=
  let headerRow := resolveHeaderRow env.headerRowOpt
  let s := env.sheet
  let hdr := getSheetRow s headerRow
  let hasHeaders := rowHasHeaders hdr
  let hmExisting := headerMapOf hdr
  match appendLoop env.dataMode headerRow hasHeaders hmExisting env.items 0 s
      [] 0 with
  | ((s1, hm, total), none) =>
      ⟨[Ev.load, Ev.save], s1, hm, .ok ⟨total, env.sheetName⟩⟩
  | ((s1, hm, _), some e) => ⟨[Ev.load], s1, hm, .error e⟩

/-! ## Concrete environments used in witnesses and counterexamples -/

/-- A sheet with headers `ID, Name` and one data row `A1, John`. -/
def sheetIdName : Sheet :=
  [[.str "ID", .str "Name"], [.str "A1", .str "John"]]

/-- Raw-mode upsert over `sheetIdName`: one record updates `A1`, one appends
a new key `A2`. -/
def envTotality : UpsertEnv :=
  ⟨"S", "raw", none, "ID", [],
   [⟨[], none, .ok (.arr [[("ID", .str "A1"), ("Name", .str "J2")],
                          [("ID", .str "A2")]])⟩],
   sheetIdName⟩

/-- Raw-mode upsert sending the same fresh key `A2` twice in one call. -/
def envDouble : UpsertEnv :=
  ⟨"S", "raw", none, "ID", [],
   [⟨[], none, .ok (.arr [[("ID", .str "A2")], [("ID", .str "A2")]])⟩],
   [[.str "ID"]]⟩

/-- The record streams `envDouble` resolves to: one item, two records with
the same key. -/
def rssDouble : List (List Record) :=
  [[[("ID", Value.str "A2")], [("ID", Value.str "A2")]]]

/-- Upsert against a sheet whose row 2 has an empty key cell. -/
def envEmptyKey : UpsertEnv :=
  ⟨"S", "autoMap", none, "ID", [],
   [⟨[("ID", .str ""), ("Name", .str "zz")], none, .error "unused"⟩],
   [[.str "ID", .str "Name"], [.str "", .str "keepme"], [.str "B", .str "bee"]]⟩

/-- Manual-mode upsert with an empty matching-columns list. -/
def envManualEmpty : UpsertEnv :=
  ⟨"S", "manual", none, "", [], [], [[.str "ID"]]⟩

/-- Raw-mode upsert whose single item expands to a valid record followed by
a record missing the key column. -/
def envRawMixed : UpsertEnv :=
  ⟨"S", "raw", none, "ID", [],
   [⟨[], none, .ok (.arr [[("ID", .str "A2")], [("Name", .str "x")]])⟩],
   [[.str "ID"]]⟩

/-- Upsert of one record with key value `v` against a sheet whose single
data row stores `w` in the key column. -/
def singleKeyEnv (v w : Value) : UpsertEnv :=
  ⟨"S", "autoMap", none, "ID", [],
   [⟨[("ID", v)], none, .error "unused"⟩],
   [[.str "ID"], [w]]⟩

/-- Upsert that updates the one existing row of `sheetIdName`. -/
def envUpsertOk : UpsertEnv :=
  ⟨"S", "autoMap", none, "ID", [],
   [⟨[("ID", .str "A1"), ("Name", .str "John2")], none, .error "unused"⟩],
   sheetIdName⟩

/-- Append whose raw-mode item fails to parse. -/
def envAppendErr : AppendEnv :=
  ⟨"S", "raw", none, [⟨[], none, .error "bad json"⟩], []⟩

/-- Append of one record onto a completely blank sheet (header bootstrap). -/
def envAppendOk : AppendEnv :=
  ⟨"Sheet1", "autoMap", none,
   [⟨[("Name", .str "A"), ("Email", .str "a@x.com")], none, .error "unused"⟩],
   []⟩

/-- Append onto a sheet with existing headers, record has an unmapped key. -/
def envAppendHdr : AppendEnv :=
  ⟨"S", "autoMap", none,
   [⟨[("Name", .str "B"), ("Phone", .str "555")], none, .error "unused"⟩],
   [[.str "Name", .str "Email"]]⟩

/-- Append with a whitespace-only header cell, a first item resolving to no
records, and a second item whose record key is that whitespace name. -/
def envWsHeader : AppendEnv :=
  ⟨"S", "raw", none,
   [⟨[], none, .ok (.arr [])⟩, ⟨[], none, .ok (.arr [[(" ", .str "x")]])⟩],
   [[.str " "]]⟩

/-- Append onto an entirely empty sheet whose first item resolves to no
records; the second item carries a record. -/
def envEmptyHeader : AppendEnv :=
  ⟨"S", "raw", none,
   [⟨[], none, .ok (.arr [])⟩, ⟨[], none, .ok (.arr [[("A", .str "x")]])⟩],
   []⟩

/-! ## Basic lemmas about the sheet model -/

theorem getD_eq_getElem? {α : Type} (l : List α) (n : Nat) (d : α) :
    l.getD n d = (l[n]?).getD d :=
  List.getD_eq_getElem?_getD l n d

theorem length_setCell (s : Sheet) (r c : Nat) (v : Value) :
    (setCell s r c v).length = max s.length r := by
  simp only [setCell, List.length_set, List.length_append, List.length_replicate]
  omega

theorem getSheetRow_setCell_self (s : Sheet) (r c : Nat) (v : Value)
    (hr : 1 ≤ r) :
    getSheetRow (setCell s r c v) r = setCellR (getSheetRow s r) c v := by
  have hlt : r - 1 < (s ++ List.replicate (r - s.length) ([] : Row)).length := by
    simp only [List.length_append, List.length_replicate]; omega
  simp only [setCell, getSheetRow, if_neg (by omega : ¬ r = 0), getD_eq_getElem?,
    List.getElem?_set_self hlt, Option.getD_some]
  congr 1
  rcases Nat.lt_or_ge (r - 1) s.length with h | h
  · simp [List.getElem?_append, h]
  · have h2 : r - 1 - s.length < r - s.length := by omega
    simp [List.getElem?_append_right h, List.getElem?_replicate, h2,
      List.getElem?_eq_none h]

theorem getSheetRow_setCell_of_ne (s : Sheet) (r c m : Nat) (v : Value)
    (hm : m ≠ r) (hr : 1 ≤ r) :
    getSheetRow (setCell s r c v) m = getSheetRow s m := by
  rcases Nat.eq_zero_or_pos m with h0 | hpos
  · simp [getSheetRow, h0, setCell]
  · simp only [setCell, getSheetRow, if_neg (by omega : ¬ m = 0), getD_eq_getElem?]
    rw [List.getElem?_set_ne (by omega : r - 1 ≠ m - 1)]
    rcases Nat.lt_or_ge (m - 1) s.length with h | h
    · simp [List.getElem?_append, h]
    · simp only [List.getElem?_append_right h, List.getElem?_replicate,
        List.getElem?_eq_none h]
      split <;> rfl

theorem getCell_setCellR_self (row : Row) (c : Nat) (v : Value) (hc : 1 ≤ c) :
    getCell (setCellR row c v) c = v := by
  have hlt : c - 1 < (padTo row c).length := by
    simp only [padTo, List.length_append, List.length_replicate]; omega
  simp [setCellR, getCell, if_neg (by omega : ¬ c = 0), getD_eq_getElem?,
    List.getElem?_set_self hlt]

theorem getCell_setCellR_ne (row : Row) (c m : Nat) (v : Value)
    (hm : m ≠ c) (hc : 1 ≤ c) :
    getCell (setCellR row c v) m = getCell row m := by
  rcases Nat.eq_zero_or_pos m with h0 | hpos
  · simp [getCell, h0]
  · simp only [setCellR, getCell, if_neg (by omega : ¬ m = 0), getD_eq_getElem?]
    rw [List.getElem?_set_ne (by omega : c - 1 ≠ m - 1)]
    simp only [padTo]
    rcases Nat.lt_or_ge (m - 1) row.length with h | h
    · simp [List.getElem?_append, h]
    · simp only [List.getElem?_append_right h, List.getElem?_replicate,
        List.getElem?_eq_none h]
      split <;> rfl

theorem getSheetRow_append_list (s : Sheet) (L : List Row) (m : Nat)
    (hm : m ≤ s.length) :
    getSheetRow (s ++ L) m = getSheetRow s m := by
  rcases Nat.eq_zero_or_pos m with h0 | hpos
  · simp [getSheetRow, h0]
  · simp only [getSheetRow, if_neg (by omega : ¬ m = 0), getD_eq_getElem?]
    rcases Nat.lt_or_ge (m - 1) s.length with h | h
    · simp [List.getElem?_append, h]
    · omega

theorem length_appendRow (s : Sheet) (buf : List (Nat × Value)) :
    (appendRow s buf).length = s.length + 1 := by
  simp [appendRow]

theorem getSheetRow_appendRow (s : Sheet) (buf : List (Nat × Value)) (m : Nat)
    (hm : m ≤ s.length) :
    getSheetRow (appendRow s buf) m = getSheetRow s m :=
  getSheetRow_append_list s _ m hm

/-! ## Lemmas about association-list lookups -/

theorem lookup_cons_ite {α β : Type} [BEq α] (a k : α) (v : β)
    (l : List (α × β)) :
    List.lookup a ((k, v) :: l) = if a == k then some v else List.lookup a l := by
  cases h : a == k <;> simp [List.lookup_cons, h]

theorem lookup_map_self (f : String → Value) :
    ∀ (K : List String) (c : String), c ∈ K →
    (K.map (fun col => (col, f col))).lookup c = some (f c) := by
  intro K
  induction K with
  | nil => intro c hc; cases hc
  | cons k ks ih =>
      intro c hc
      simp only [List.map_cons, lookup_cons_ite]
      by_cases hck : c = k
      · subst hck; simp
      · rw [if_neg (by simpa using hck)]
        refine ih c ?_
        rcases List.mem_cons.1 hc with h | h
        · exact absurd h hck
        · exact h

/-! ## Lemmas about `applyUpdate` -/

theorem applyUpdate_cons (s : Sheet) (hm : HeaderMap) (rowNum : Nat)
    (kv : String × Value) (rest : Record) :
    applyUpdate s hm rowNum (kv :: rest) =
      applyUpdate
        (match hm.lookup kv.1 with
         | some c => setCell s rowNum c kv.2
         | none => s) hm rowNum rest := rfl

theorem length_applyUpdate (hm : HeaderMap) (rowNum : Nat) (rowData : Record) :
    ∀ (s : Sheet), 1 ≤ rowNum → rowNum ≤ s.length →
    (applyUpdate s hm rowNum rowData).length = s.length := by
  induction rowData with
  | nil => intro s _ _; rfl
  | cons kv rest ih =>
      intro s h1 h2
      rw [applyUpdate_cons]
      cases hlk : hm.lookup kv.1 with
      | none => simp only [hlk]; exact ih s h1 h2
      | some c =>
          simp only [hlk]
          have hlen : (setCell s rowNum c kv.2).length = s.length := by
            rw [length_setCell]; omega
          rw [ih _ h1 (by omega), hlen]

theorem getSheetRow_applyUpdate_ne (hm : HeaderMap) (rowNum : Nat)
    (rowData : Record) (m : Nat) (hne : m ≠ rowNum) (h1 : 1 ≤ rowNum) :
    ∀ (s : Sheet),
    getSheetRow (applyUpdate s hm rowNum rowData) m = getSheetRow s m := by
  induction rowData with
  | nil => intro s; rfl
  | cons kv rest ih =>
      intro s
      rw [applyUpdate_cons]
      cases hlk : hm.lookup kv.1 with
      | none => simp only [hlk]; exact ih s
      | some c =>
          simp only [hlk]
          rw [ih _, getSheetRow_setCell_of_ne s rowNum c m kv.2 hne h1]

/-! ## Lemmas about the key index -/

theorem indexStep_lookup {s : Sheet} {hm : HeaderMap} {K : List String}
    (idx : List (String × Nat)) (rowNum : Nat) (k : String) (n : Nat)
    (h : (indexStep s hm K idx rowNum).lookup k = some n) :
    idx.lookup k = some n ∨ n = rowNum := by
  simp only [indexStep] at h
  split at h
  · rw [lookup_cons_ite] at h
    split at h
    · right; exact (Option.some_inj.1 h).symm ▸ rfl
    · left; exact h
  · left; exact h

theorem indexFold_lookup {s : Sheet} {hm : HeaderMap} {K : List String}
    (P : Nat → Prop) :
    ∀ (l : List Nat) (idx : List (String × Nat)),
    (∀ k n, idx.lookup k = some n → P n) → (∀ m ∈ l, P m) →
    ∀ k n, (l.foldl (indexStep s hm K) idx).lookup k = some n → P n := by
  intro l
  induction l with
  | nil => intro idx hidx _ k n h; exact hidx k n h
  | cons m rest ih =>
      intro idx hidx hl k n h
      refine ih (indexStep s hm K idx m) ?_ (fun x hx => hl x (List.mem_cons_of_mem m hx)) k n h
      intro k' n' h'
      rcases indexStep_lookup idx m k' n' h' with h'' | h''
      · exact hidx k' n' h''
      · exact h'' ▸ hl m (List.mem_cons_self m rest)

theorem buildIndex_lookup_bound (s : Sheet) (hm : HeaderMap) (K : List String)
    (hr : Nat) (k : String) (n : Nat)
    (h : (buildIndex s hm K hr).lookup k = some n) :
    hr + 1 ≤ n ∧ n ≤ s.length := by
  refine indexFold_lookup (fun n => hr + 1 ≤ n ∧ n ≤ s.length) _ [] ?_ ?_ k n h
  · intro k' n' h'; cases h'
  · intro m hm'
    rw [List.mem_range'_1] at hm'
    omega

theorem keyPart_all_empty {row : Row} {hm : HeaderMap} (K : List String)
    (hempty : ∀ c ∈ K,
      getCell row ((hm.lookup c).getD 0) = .null ∨
      getCell row ((hm.lookup c).getD 0) = .str "") (c : String) (hc : c ∈ K) :
    keyPart (K.map (fun col => (col, getCell row ((hm.lookup col).getD 0)))) c
      = "" := by
  unfold keyPart
  rw [lookup_map_self _ K c hc]
  rcases hempty c hc with h | h
  · rw [h]
  · rw [h]
    rfl

theorem createKey_all_empty {row : Row} {hm : HeaderMap} (K : List String)
    (hempty : ∀ c ∈ K,
      getCell row ((hm.lookup c).getD 0) = .null ∨
      getCell row ((hm.lookup c).getD 0) = .str "") :
    createKey (K.map (fun col => (col, getCell row ((hm.lookup col).getD 0)))) K
      = emptyKeyOf K := by
  unfold createKey emptyKeyOf
  congr 1
  exact List.map_congr_left (fun c hc => keyPart_all_empty K hempty c hc)

theorem indexFold_excludes {s : Sheet} {hm : HeaderMap} {K : List String}
    (n : Nat)
    (hempty : ∀ c ∈ K,
      getCell (getSheetRow s n) ((hm.lookup c).getD 0) = .null ∨
      getCell (getSheetRow s n) ((hm.lookup c).getD 0) = .str "") :
    ∀ (l : List Nat) (idx : List (String × Nat)),
    (∀ k, idx.lookup k ≠ some n) →
    ∀ k, ((l.foldl (indexStep s hm K) idx).lookup k ≠ some n) := by
  intro l
  induction l with
  | nil => intro idx hidx k; exact hidx k
  | cons m rest ih =>
      intro idx hidx k
      refine ih (indexStep s hm K idx m) ?_ k
      intro k' h'
      by_cases hmn : m = n
      · subst hmn
        simp only [indexStep] at h'
        rw [createKey_all_empty K hempty] at h'
        rw [if_neg (by simp)] at h'
        exact hidx k' h'
      · rcases indexStep_lookup idx m k' n h' with h'' | h''
        · exact hidx k' h''
        · exact hmn h''.symm

theorem buildIndex_excludes (s : Sheet) (hm : HeaderMap) (K : List String)
    (hr : Nat) (n : Nat)
    (hempty : ∀ c ∈ K,
      getCell (getSheetRow s n) ((hm.lookup c).getD 0) = .null ∨
      getCell (getSheetRow s n) ((hm.lookup c).getD 0) = .str "") :
    ∀ k, (buildIndex s hm K hr).lookup k ≠ some n := by
  refine indexFold_excludes n hempty _ [] ?_
  intro k h; cases h

theorem one_le_resolveHeaderRow (o : Option Nat) : 1 ≤ resolveHeaderRow o := by
  rcases o with _ | (_ | n)
  · simp [resolveHeaderRow]
  · simp [resolveHeaderRow]
  · simp [resolveHeaderRow]

/-! ## Lemmas about the upsert record loop -/

theorem processRecords_ok_spec (ctx : UpsertCtx) (i : Nat) :
    ∀ (rs : List Record) (st out : Sheet × Nat × Nat),
    (∀ k n, ctx.index.lookup k = some n → 1 ≤ n ∧ n ≤ st.1.length) →
    processRecords ctx i st rs = (out, none) →
    (∀ r ∈ rs, ctx.keyColumns.find? (fun col => keyMissing r col) = none) ∧
    out.2.1 = st.2.1 + rs.countP (matchedB ctx) ∧
    out.2.2 = st.2.2 + rs.countP (freshB ctx) ∧
    out.1.length = st.1.length + rs.countP (freshB ctx) ∧
    (∀ m, m ≤ st.1.length → (∀ k, ctx.index.lookup k ≠ some m) →
      getSheetRow out.1 m = getSheetRow st.1 m) := by
  intro rs
  induction rs with
  | nil =>
      intro st out _ h
      simp only [processRecords, Prod.mk.injEq] at h
      obtain ⟨h1, -⟩ := h
      subst h1
      simp
  | cons r rest ih =>
      intro st out hidx h
      simp only [processRecords, stepRecord] at h
      cases hv : ctx.keyColumns.find? (fun col => keyMissing r col) with
      | some c =>
          simp only [hv] at h
          exact Option.noConfusion (congrArg Prod.snd h)
      | none =>
          simp only [hv] at h
          cases hlk : ctx.index.lookup (createKey r ctx.keyColumns) with
          | some rowNum =>
              simp only [hlk] at h
              have hb := hidx _ _ hlk
              have hlen : (applyUpdate st.1 ctx.hm rowNum r).length = st.1.length :=
                length_applyUpdate ctx.hm rowNum r st.1 hb.1 hb.2
              have hidx' : ∀ k n, ctx.index.lookup k = some n →
                  1 ≤ n ∧ n ≤ (applyUpdate st.1 ctx.hm rowNum r).length := by
                intro k n hk; rw [hlen]; exact hidx k n hk
              obtain ⟨hval, hu, ha, hl, hp⟩ := ih _ out hidx' h
              dsimp only at hu ha hl hp
              have hmr : matchedB ctx r = true := by
                simp [matchedB, hlk]
              refine ⟨?_, ?_, ?_, ?_, ?_⟩
              · intro r' hr'
                rcases List.mem_cons.1 hr' with h' | h'
                · exact h' ▸ hv
                · exact hval r' h'
              · rw [List.countP_cons, hmr]; simp at hu ⊢; omega
              · rw [List.countP_cons]
                simp [freshB, hmr] at ha ⊢; omega
              · rw [List.countP_cons]
                simp only [hlen] at hl
                simp [freshB, hmr]; omega
              · intro m hm1 hm2
                have hne : m ≠ rowNum := by
                  intro hcon; exact hm2 _ (hcon ▸ hlk)
                rw [hp m (by omega) hm2,
                getSheetRow_applyUpdate_ne ctx.hm rowNum r m hne hb.1 st.1]
          | none =>
              simp only [hlk] at h
              have hidx' : ∀ k n, ctx.index.lookup k = some n →
                  1 ≤ n ∧ n ≤ (appendRow st.1 (buildNewRow ctx.hm r)).length := by
                intro k n hk
                rw [length_appendRow]
                have := hidx k n hk; omega
              obtain ⟨hval, hu, ha, hl, hp⟩ := ih _ out hidx' h
              dsimp only at hu ha hl hp
              have hmr : matchedB ctx r = false := by
                simp [matchedB, hlk]
              refine ⟨?_, ?_, ?_, ?_, ?_⟩
              · intro r' hr'
                rcases List.mem_cons.1 hr' with h' | h'
                · exact h' ▸ hv
                · exact hval r' h'
              · rw [List.countP_cons, hmr]; simp at hu ⊢; omega
              · rw [List.countP_cons]
                simp [freshB, hmr] at ha ⊢; omega
              · rw [List.countP_cons]
                rw [length_appendRow] at hl
                simp [freshB, hmr]; omega
              · intro m hm1 hm2
                rw [hp m (by rw [length_appendRow]; omega) hm2,
                  getSheetRow_appendRow st.1 _ m hm1]

theorem processRecords_len_mono (ctx : UpsertCtx) (i : Nat) :
    ∀ (rs : List Record) (st : Sheet × Nat × Nat),
    (∀ k n, ctx.index.lookup k = some n → 1 ≤ n ∧ n ≤ st.1.length) →
    st.1.length ≤ (processRecords ctx i st rs).1.1.length := by
  intro rs
  induction rs with
  | nil => intro st _; simp [processRecords]
  | cons r rest ih =>
      intro st hidx
      simp only [processRecords, stepRecord]
      cases hv : ctx.keyColumns.find? (fun col => keyMissing r col) with
      | some c => simp
      | none =>
          cases hlk : ctx.index.lookup (createKey r ctx.keyColumns) with
          | some rowNum =>
              have hb := hidx _ _ hlk
              have hlen : (applyUpdate st.1 ctx.hm rowNum r).length = st.1.length :=
                length_applyUpdate ctx.hm rowNum r st.1 hb.1 hb.2
              have := ih (applyUpdate st.1 ctx.hm rowNum r, st.2.1 + 1, st.2.2)
                (by intro k n hk; rw [hlen]; exact hidx k n hk)
              simp only [hlen] at this
              simpa using this
          | none =>
              have := ih (appendRow st.1 (buildNewRow ctx.hm r), st.2.1, st.2.2 + 1)
                (by intro k n hk; rw [length_appendRow]
                    have := hidx k n hk; omega)
              rw [length_appendRow] at this
              simp only []
              omega

theorem processRecords_preserve (ctx : UpsertCtx) (i : Nat) :
    ∀ (rs : List Record) (st : Sheet × Nat × Nat) (m : Nat),
    (∀ k n, ctx.index.lookup k = some n → 1 ≤ n ∧ n ≤ st.1.length) →
    m ≤ st.1.length → (∀ k, ctx.index.lookup k ≠ some m) →
    getSheetRow (processRecords ctx i st rs).1.1 m = getSheetRow st.1 m := by
  intro rs
  induction rs with
  | nil => intro st m _ _ _; simp [processRecords]
  | cons r rest ih =>
      intro st m hidx hm1 hm2
      simp only [processRecords, stepRecord]
      cases hv : ctx.keyColumns.find? (fun col => keyMissing r col) with
      | some c => simp
      | none =>
          cases hlk : ctx.index.lookup (createKey r ctx.keyColumns) with
          | some rowNum =>
              have hb := hidx _ _ hlk
              have hlen : (applyUpdate st.1 ctx.hm rowNum r).length = st.1.length :=
                length_applyUpdate ctx.hm rowNum r st.1 hb.1 hb.2
              have hne : m ≠ rowNum := by
                intro hcon; exact hm2 _ (hcon ▸ hlk)
              rw [ih (applyUpdate st.1 ctx.hm rowNum r, st.2.1 + 1, st.2.2) m
                  (by intro k n hk; rw [hlen]; exact hidx k n hk)
                  (by rw [hlen]; omega) hm2]
              exact getSheetRow_applyUpdate_ne ctx.hm rowNum r m hne hb.1 st.1
          | none =>
              rw [ih (appendRow st.1 (buildNewRow ctx.hm r), st.2.1, st.2.2 + 1) m
                  (by intro k n hk; rw [length_appendRow]
                      have := hidx k n hk; omega)
                  (by rw [length_appendRow]; omega) hm2]
              exact getSheetRow_appendRow st.1 _ m hm1

/-! ## Lemmas about the upsert item loop -/

theorem processItems_ok_spec (ctx : UpsertCtx) (dm : String) :
    ∀ (items : List ItemEnv) (i : Nat) (st out : Sheet × Nat × Nat),
    (∀ k n, ctx.index.lookup k = some n → 1 ≤ n ∧ n ≤ st.1.length) →
    processItems ctx dm items i st = (out, none) →
    ∃ rss, resolveItems dm i items = .ok rss ∧
      out.2.1 = st.2.1 + rss.flatten.countP (matchedB ctx) ∧
      out.2.2 = st.2.2 + rss.flatten.countP (freshB ctx) ∧
      out.1.length = st.1.length + rss.flatten.countP (freshB ctx) ∧
      (∀ m, m ≤ st.1.length → (∀ k, ctx.index.lookup k ≠ some m) →
        getSheetRow out.1 m = getSheetRow st.1 m) := by
  intro items
  induction items with
  | nil =>
      intro i st out _ h
      simp only [processItems, Prod.mk.injEq] at h
      obtain ⟨h1, -⟩ := h
      subst h1
      exact ⟨[], rfl, by simp, by simp, by simp, fun m _ _ => rfl⟩
  | cons it rest ih =>
      intro i st out hidx h
      simp only [processItems] at h
      cases hgr : getRowData i it dm with
      | error e =>
          simp only [hgr] at h
          exact Option.noConfusion (congrArg Prod.snd h)
      | ok rs =>
          simp only [hgr] at h
          cases hpr : processRecords ctx i st rs with
          | mk st' err =>
              cases err with
              | some e =>
                  rw [hpr] at h
                  exact Option.noConfusion (congrArg Prod.snd h)
              | none =>
                  rw [hpr] at h
                  obtain ⟨-, hu1, ha1, hl1, hp1⟩ :=
                    processRecords_ok_spec ctx i rs st st' hidx hpr
                  have hidx' : ∀ k n, ctx.index.lookup k = some n →
                      1 ≤ n ∧ n ≤ st'.1.length := by
                    intro k n hk
                    have := hidx k n hk
                    omega
                  obtain ⟨rss', hres', hu2, ha2, hl2, hp2⟩ := ih (i + 1) st' out hidx' h
                  refine ⟨rs :: rss', ?_, ?_, ?_, ?_, ?_⟩
                  · simp only [resolveItems, hgr, hres']
                    rfl
                  · simp only [List.flatten_cons, List.countP_append]
                    omega
                  · simp only [List.flatten_cons, List.countP_append]
                    omega
                  · simp only [List.flatten_cons, List.countP_append]
                    omega
                  · intro m hm1 hm2
                    rw [hp2 m (by omega) hm2, hp1 m hm1 hm2]

theorem processItems_len_mono (ctx : UpsertCtx) (dm : String) :
    ∀ (items : List ItemEnv) (i : Nat) (st : Sheet × Nat × Nat),
    (∀ k n, ctx.index.lookup k = some n → 1 ≤ n ∧ n ≤ st.1.length) →
    st.1.length ≤ (processItems ctx dm items i st).1.1.length := by
  intro items
  induction items with
  | nil => intro i st _; simp [processItems]
  | cons it rest ih =>
      intro i st hidx
      simp only [processItems]
      cases hgr : getRowData i it dm with
      | error e => simp
      | ok rs =>
          dsimp only
          cases hpr : processRecords ctx i st rs with
          | mk st' err =>
              have hmono : st.1.length ≤ st'.1.length := by
                have := processRecords_len_mono ctx i rs st hidx
                rw [hpr] at this
                exact this
              cases err with
              | some e => exact hmono
              | none =>
                  have hidx' : ∀ k n, ctx.index.lookup k = some n →
                      1 ≤ n ∧ n ≤ st'.1.length := by
                    intro k n hk
                    have := hidx k n hk
                    omega
                  exact le_trans hmono (ih (i + 1) st' hidx')

theorem processItems_preserve (ctx : UpsertCtx) (dm : String) :
    ∀ (items : List ItemEnv) (i : Nat) (st : Sheet × Nat × Nat) (m : Nat),
    (∀ k n, ctx.index.lookup k = some n → 1 ≤ n ∧ n ≤ st.1.length) →
    m ≤ st.1.length → (∀ k, ctx.index.lookup k ≠ some m) →
    getSheetRow (processItems ctx dm items i st).1.1 m = getSheetRow st.1 m := by
  intro items
  induction items with
  | nil => intro i st m _ _ _; simp [processItems]
  | cons it rest ih =>
      intro i st m hidx hm1 hm2
      simp only [processItems]
      cases hgr : getRowData i it dm with
      | error e => simp
      | ok rs =>
          dsimp only
          cases hpr : processRecords ctx i st rs with
          | mk st' err =>
              have hmono : st.1.length ≤ st'.1.length := by
                have := processRecords_len_mono ctx i rs st hidx
                rw [hpr] at this
                exact this
              have hprs : getSheetRow st'.1 m = getSheetRow st.1 m := by
                have := processRecords_preserve ctx i rs st m hidx hm1 hm2
                rw [hpr] at this
                exact this
              cases err with
              | some e => exact hprs
              | none =>
                  have hidx' : ∀ k n, ctx.index.lookup k = some n →
                      1 ≤ n ∧ n ≤ st'.1.length := by
                    intro k n hk
                    have := hidx k n hk
                    omega
                  rw [ih (i + 1) st' m hidx' (by omega) hm2, hprs]

/-! ## Master lemmas about one upsert invocation -/

theorem ctxOf_eq (env : UpsertEnv) (K : List String)
    (hK : getKeyColumns env = .ok K) :
    ctxOf env =
      ⟨headerMapOf (getSheetRow env.sheet (resolveHeaderRow env.headerRowOpt)),
       K,
       buildIndex env.sheet
         (headerMapOf (getSheetRow env.sheet (resolveHeaderRow env.headerRowOpt)))
         K (resolveHeaderRow env.headerRowOpt)⟩ := by
  simp [ctxOf, hK]

theorem buildIndex_bounds_ctx (env : UpsertEnv) :
    ∀ k n, (ctxOf env).index.lookup k = some n →
      1 ≤ n ∧ n ≤ env.sheet.length := by
  intro k n h
  unfold ctxOf at h
  cases hK : getKeyColumns env with
  | error e => rw [hK] at h; cases h
  | ok K =>
      rw [hK] at h
      simp only at h
      have := buildIndex_lookup_bound _ _ _ _ _ _ h
      omega

theorem upsertExecute_ok_spec (env : UpsertEnv) (res : UpsertResult)
    (hok : (upsertExecute env).result = .ok res) :
    ∃ rss, resolveItems env.dataMode 0 env.items = .ok rss ∧
      res.rowsUpdated = rss.flatten.countP (matchedB (ctxOf env)) ∧
      res.rowsAppended = rss.flatten.countP (freshB (ctxOf env)) ∧
      (upsertExecute env).sheet.length = env.sheet.length + res.rowsAppended := by
  cases hK : getKeyColumns env with
  | error e =>
      rw [show (upsertExecute env).result = .error e by
        simp only [upsertExecute, hK]] at hok
      cases hok
  | ok K =>
      cases hfd : K.find? (fun c =>
          ((headerMapOf (getSheetRow env.sheet
            (resolveHeaderRow env.headerRowOpt))).lookup c).isNone) with
      | some c =>
          rw [show (upsertExecute env).result = .error (.keyColumnNotFound c) by
            simp only [upsertExecute, hK, hfd]] at hok
          cases hok
      | none =>
          cases hpi : processItems
              ⟨headerMapOf (getSheetRow env.sheet (resolveHeaderRow env.headerRowOpt)),
               K,
               buildIndex env.sheet
                 (headerMapOf (getSheetRow env.sheet (resolveHeaderRow env.headerRowOpt)))
                 K (resolveHeaderRow env.headerRowOpt)⟩
              env.dataMode env.items 0 (env.sheet, 0, 0) with
          | mk st err =>
              cases err with
              | some e =>
                  rw [show (upsertExecute env).result = .error e by
                    simp only [upsertExecute, hK, hfd, hpi]] at hok
                  cases hok
              | none =>
                  have hrun : upsertExecute env =
                      ⟨[Ev.load, Ev.scan, Ev.save], st.1,
                        .ok ⟨st.2.1, st.2.2, env.sheetName⟩⟩ := by
                    simp only [upsertExecute, hK, hfd, hpi]
                  rw [hrun] at hok
                  simp only [Except.ok.injEq] at hok
                  subst hok
                  rw [hrun, ctxOf_eq env K hK]
                  have hidx : ∀ k n,
                      (buildIndex env.sheet
                        (headerMapOf (getSheetRow env.sheet
                          (resolveHeaderRow env.headerRowOpt)))
                        K (resolveHeaderRow env.headerRowOpt)).lookup k = some n →
                      1 ≤ n ∧ n ≤ (((env.sheet, 0, 0) :
                        Sheet × Nat × Nat)).1.length := by
                    intro k n h
                    have := buildIndex_lookup_bound _ _ _ _ _ _ h
                    dsimp only
                    omega
                  obtain ⟨rss, hres, hu, ha, hl, -⟩ :=
                    processItems_ok_spec _ env.dataMode env.items 0 _ _ hidx hpi
                  dsimp only at hu ha hl
                  exact ⟨rss, hres, by simpa using hu, by simpa using ha,
                    by dsimp only; omega⟩

theorem upsertExecute_sheet_preserve (env : UpsertEnv) (m : Nat)
    (hm1 : m ≤ env.sheet.length)
    (hm2 : ∀ k, (ctxOf env).index.lookup k ≠ some m) :
    getSheetRow (upsertExecute env).sheet m = getSheetRow env.sheet m := by
  cases hK : getKeyColumns env with
  | error e =>
      rw [show (upsertExecute env).sheet = env.sheet by
        simp only [upsertExecute, hK]]
  | ok K =>
      cases hfd : K.find? (fun c =>
          ((headerMapOf (getSheetRow env.sheet
            (resolveHeaderRow env.headerRowOpt))).lookup c).isNone) with
      | some c =>
          rw [show (upsertExecute env).sheet = env.sheet by
            simp only [upsertExecute, hK, hfd]]
      | none =>
          rw [ctxOf_eq env K hK] at hm2
          simp only at hm2
          cases hpi : processItems
              ⟨headerMapOf (getSheetRow env.sheet (resolveHeaderRow env.headerRowOpt)),
               K,
               buildIndex env.sheet
                 (headerMapOf (getSheetRow env.sheet (resolveHeaderRow env.headerRowOpt)))
                 K (resolveHeaderRow env.headerRowOpt)⟩
              env.dataMode env.items 0 (env.sheet, 0, 0) with
          | mk st err =>
              have hsheet : (upsertExecute env).sheet = st.1 := by
                cases err <;> simp only [upsertExecute, hK, hfd, hpi]
              rw [hsheet]
              have hidx : ∀ k n,
                  (buildIndex env.sheet
                    (headerMapOf (getSheetRow env.sheet
                      (resolveHeaderRow env.headerRowOpt)))
                    K (resolveHeaderRow env.headerRowOpt)).lookup k = some n →
                  1 ≤ n ∧ n ≤ (((env.sheet, 0, 0) : Sheet × Nat × Nat)).1.length := by
                intro k n h
                have := buildIndex_lookup_bound _ _ _ _ _ _ h
                dsimp only
                omega
              have hpres := processItems_preserve
                ⟨headerMapOf (getSheetRow env.sheet (resolveHeaderRow env.headerRowOpt)),
                 K,
                 buildIndex env.sheet
                   (headerMapOf (getSheetRow env.sheet (resolveHeaderRow env.headerRowOpt)))
                   K (resolveHeaderRow env.headerRowOpt)⟩
                env.dataMode env.items 0 (env.sheet, 0, 0) m hidx
                (by dsimp only; exact hm1) hm2
              rw [hpi] at hpres
              exact hpres

/-! ## Counting helpers -/

theorem countP_not_add {α : Type} (p : α → Bool) (l : List α) :
    l.countP p + l.countP (fun a => !(p a)) = l.length := by
  induction l with
  | nil => simp
  | cons a t ih =>
      rw [List.countP_cons, List.countP_cons]
      cases h : p a <;> simp [h] <;> omega

theorem two_le_countP {α : Type} (p : α → Bool) :
    ∀ (l : List α) (i j : Nat) (hi : i < l.length) (hj : j < l.length),
    i ≠ j → p (l.get ⟨i, hi⟩) = true → p (l.get ⟨j, hj⟩) = true →
    2 ≤ l.countP p := by
  intro l
  induction l with
  | nil => intro i j hi _ _ _ _; cases hi
  | cons a t ih =>
      intro i j hi hj hij hpi hpj
      cases i with
      | zero =>
          cases j with
          | zero => exact absurd rfl hij
          | succ j' =>
              have hpa : p a = true := hpi
              have hmem : t.get ⟨j', by simpa using hj⟩ ∈ t :=
                List.get_mem t _ _
              have hpos : 0 < t.countP p :=
                List.countP_pos_iff.2 ⟨_, hmem, hpj⟩
              rw [List.countP_cons, if_pos hpa]
              omega
      | succ i' =>
          cases j with
          | zero =>
              have hpa : p a = true := hpj
              have hmem : t.get ⟨i', by simpa using hi⟩ ∈ t :=
                List.get_mem t _ _
              have hpos : 0 < t.countP p :=
                List.countP_pos_iff.2 ⟨_, hmem, hpi⟩
              rw [List.countP_cons, if_pos hpa]
              omega
          | succ j' =>
              have h2 := ih i' j' (by simpa using hi) (by simpa using hj)
                (by omega) hpi hpj
              rw [List.countP_cons]
              omega

/-! ## Claim theorems: upsert counting -/

/-- C1.  Upsert match-or-append totality: whenever an upsert invocation
returns a result, every resolved record (after raw-mode array expansion)
was settled exactly one way — updated if its composite key hits the
pre-scan index, appended otherwise — so `rowsUpdated + rowsAppended` equals
the total number of resolved records, and the sheet grew by exactly one row
per appended record.  (Success of the invocation entails the claim's
premise that every record carried a non-null key value in every key
column: a missing key value raises instead of returning.) -/
theorem upsert_match_or_append_totality (env : UpsertEnv) (res : UpsertResult)
    (hok : (upsertExecute env).result = .ok res) :
    ∃ rss, resolveItems env.dataMode 0 env.items = .ok rss ∧
      res.rowsUpdated + res.rowsAppended = rss.flatten.length ∧
      res.rowsUpdated = rss.flatten.countP (matchedB (ctxOf env)) ∧
      res.rowsAppended = rss.flatten.countP (freshB (ctxOf env)) ∧
      (upsertExecute env).sheet.length = env.sheet.length + res.rowsAppended := by
  obtain ⟨rss, h1, h2, h3, h4⟩ := upsertExecute_ok_spec env res hok
  refine ⟨rss, h1, ?_, h2, h3, h4⟩
  rw [h2, h3]
  exact countP_not_add (matchedB (ctxOf env)) rss.flatten

/-- Witness for C1 at a concrete invocation: one record updates the
existing row `A1`, one appends the fresh key `A2`, and `1 + 1` equals the
two resolved records. -/
theorem upsert_match_or_append_totality_witness :
    (upsertExecute envTotality).result = .ok ⟨1, 1, "S"⟩ ∧
    ∃ rss, resolveItems envTotality.dataMode 0 envTotality.items = .ok rss ∧
      (1 : Nat) + 1 = rss.flatten.length ∧
      (1 : Nat) = rss.flatten.countP (matchedB (ctxOf envTotality)) ∧
      (1 : Nat) = rss.flatten.countP (freshB (ctxOf envTotality)) ∧
      (upsertExecute envTotality).sheet.length =
        envTotality.sheet.length + 1 :=
  ⟨by decide, upsert_match_or_append_totality envTotality ⟨1, 1, "S"⟩ (by decide)⟩

/-- C2.  Same-batch double-insert: the key index is built once before the
record loop and never extended during it, so any two resolved records with
the same composite key absent from the pre-scan index are both counted as
appends (each adding its own new row), and `rowsUpdated` counts only
records whose key was in the pre-scan index. -/
theorem upsert_same_batch_double_insert (env : UpsertEnv) (res : UpsertResult)
    (rss : List (List Record)) (i j : Nat)
    (hok : (upsertExecute env).result = .ok res)
    (hres : resolveItems env.dataMode 0 env.items = .ok rss)
    (hi : i < rss.flatten.length) (hj : j < rss.flatten.length) (hij : i ≠ j)
    (hkey : createKey (rss.flatten.get ⟨i, hi⟩) (ctxOf env).keyColumns =
            createKey (rss.flatten.get ⟨j, hj⟩) (ctxOf env).keyColumns)
    (hfresh : (ctxOf env).index.lookup
        (createKey (rss.flatten.get ⟨i, hi⟩) (ctxOf env).keyColumns) = none) :
    freshB (ctxOf env) (rss.flatten.get ⟨i, hi⟩) = true ∧
    freshB (ctxOf env) (rss.flatten.get ⟨j, hj⟩) = true ∧
    res.rowsAppended = rss.flatten.countP (freshB (ctxOf env)) ∧
    2 ≤ res.rowsAppended ∧
    res.rowsUpdated = rss.flatten.countP (matchedB (ctxOf env)) ∧
    (upsertExecute env).sheet.length = env.sheet.length + res.rowsAppended := by
  obtain ⟨rss', h1, h2, h3, h4⟩ := upsertExecute_ok_spec env res hok
  rw [hres] at h1
  have hrr : rss' = rss := by
    have := h1.symm
    simpa using this
  rw [hrr] at h2 h3
  have hfi : freshB (ctxOf env) (rss.flatten.get ⟨i, hi⟩) = true := by
    simp only [freshB, matchedB, hfresh, Option.isSome_none, Bool.not_false]
  have hfj : freshB (ctxOf env) (rss.flatten.get ⟨j, hj⟩) = true := by
    rw [hkey] at hfresh
    simp only [freshB, matchedB, hfresh, Option.isSome_none, Bool.not_false]
  refine ⟨hfi, hfj, h3, ?_, h2, h4⟩
  rw [h3]
  exact two_le_countP (freshB (ctxOf env)) rss.flatten i j hi hj hij hfi hfj

/-- Witness for C2 at a concrete invocation: the same fresh key `A2` sent
twice in one raw-mode batch yields two appended rows and no update. -/
theorem upsert_same_batch_double_insert_witness :
    (upsertExecute envDouble).result = .ok ⟨0, 2, "S"⟩ ∧
    resolveItems envDouble.dataMode 0 envDouble.items = .ok rssDouble ∧
    (freshB (ctxOf envDouble) (rssDouble.flatten.get ⟨0, by decide⟩) = true ∧
     freshB (ctxOf envDouble) (rssDouble.flatten.get ⟨1, by decide⟩) = true ∧
     (⟨0, 2, "S"⟩ : UpsertResult).rowsAppended =
       rssDouble.flatten.countP (freshB (ctxOf envDouble)) ∧
     2 ≤ (⟨0, 2, "S"⟩ : UpsertResult).rowsAppended ∧
     (⟨0, 2, "S"⟩ : UpsertResult).rowsUpdated =
       rssDouble.flatten.countP (matchedB (ctxOf envDouble)) ∧
     (upsertExecute envDouble).sheet.length =
       envDouble.sheet.length +
         (⟨0, 2, "S"⟩ : UpsertResult).rowsAppended) :=
  ⟨by decide, by decide,
   upsert_same_batch_double_insert envDouble ⟨0, 2, "S"⟩ rssDouble 0 1
     (by decide) (by decide) (by decide) (by decide) (by decide) (by decide)
     (by decide)⟩

/-! ## Trace shape of the two engines -/

theorem upsertExecute_shape (env : UpsertEnv) :
    (exOk (upsertExecute env).result = true ∧
      (upsertExecute env).trace = [Ev.load, Ev.scan, Ev.save]) ∨
    (exOk (upsertExecute env).result = false ∧
      ((upsertExecute env).trace = [] ∨ (upsertExecute env).trace = [Ev.load] ∨
        (upsertExecute env).trace = [Ev.load, Ev.scan])) := by
  cases hK : getKeyColumns env with
  | error e =>
      have hrun : upsertExecute env = ⟨[], env.sheet, .error e⟩ := by
        simp only [upsertExecute, hK]
      rw [hrun]
      exact Or.inr ⟨rfl, Or.inl rfl⟩
  | ok K =>
      cases hfd : K.find? (fun c =>
          ((headerMapOf (getSheetRow env.sheet
            (resolveHeaderRow env.headerRowOpt))).lookup c).isNone) with
      | some c =>
          have hrun : upsertExecute env =
              ⟨[Ev.load], env.sheet, .error (.keyColumnNotFound c)⟩ := by
            simp only [upsertExecute, hK, hfd]
          rw [hrun]
          exact Or.inr ⟨rfl, Or.inr (Or.inl rfl)⟩
      | none =>
          cases hpi : processItems
              ⟨headerMapOf (getSheetRow env.sheet (resolveHeaderRow env.headerRowOpt)),
               K,
               buildIndex env.sheet
                 (headerMapOf (getSheetRow env.sheet (resolveHeaderRow env.headerRowOpt)))
                 K (resolveHeaderRow env.headerRowOpt)⟩
              env.dataMode env.items 0 (env.sheet, 0, 0) with
          | mk st err =>
              cases err with
              | none =>
                  have hrun : upsertExecute env =
                      ⟨[Ev.load, Ev.scan, Ev.save], st.1,
                        .ok ⟨st.2.1, st.2.2, env.sheetName⟩⟩ := by
                    simp only [upsertExecute, hK, hfd, hpi]
                  rw [hrun]
                  exact Or.inl ⟨rfl, rfl⟩
              | some e =>
                  have hrun : upsertExecute env =
                      ⟨[Ev.load, Ev.scan], st.1, .error e⟩ := by
                    simp only [upsertExecute, hK, hfd, hpi]
                  rw [hrun]
                  exact Or.inr ⟨rfl, Or.inr (Or.inr rfl)⟩

theorem appendExecute_shape (env : AppendEnv) :
    (exOk (appendExecute env).result = true ∧
      (appendExecute env).trace = [Ev.load, Ev.save]) ∨
    (exOk (appendExecute env).result = false ∧
      (appendExecute env).trace = [Ev.load]) := by
  cases hal : appendLoop env.dataMode (resolveHeaderRow env.headerRowOpt)
      (rowHasHeaders (getSheetRow env.sheet (resolveHeaderRow env.headerRowOpt)))
      (headerMapOf (getSheetRow env.sheet (resolveHeaderRow env.headerRowOpt)))
      env.items 0 env.sheet [] 0 with
  | mk out err =>
      obtain ⟨s1, hm1, tot⟩ := out
      cases err with
      | none =>
          have hrun : appendExecute env =
              ⟨[Ev.load, Ev.save], s1, hm1, .ok ⟨tot, env.sheetName⟩⟩ := by
            simp only [appendExecute, hal]
          rw [hrun]
          exact Or.inl ⟨rfl, rfl⟩
      | some e =>
          have hrun : appendExecute env = ⟨[Ev.load], s1, hm1, .error e⟩ := by
            simp only [appendExecute, hal]
          rw [hrun]
          exact Or.inr ⟨rfl, rfl⟩

/-! ## Claim theorems: error ordering and persistence -/

/-- C6 counterexample.  The spec claims the "At least one matching column
must be selected in manual mode" error is raised after the workbook has
been loaded.  At this concrete manual-mode invocation with an empty
matching-columns list, the error is raised with an empty interaction
trace: the workbook-load point of the source was never reached, refuting
the claimed ordering. -/
theorem upsert_manual_empty_before_load_cex :
    (upsertExecute envManualEmpty).result = .error .noMatchingColumns ∧
    (upsertExecute envManualEmpty).trace = [] ∧
    Ev.load ∉ (upsertExecute envManualEmpty).trace := by
  decide

/-- C6 (amended).  In manual mode with an empty matching-columns list,
upsert fails with "At least one matching column must be selected in manual
mode" before the workbook is loaded (the trace is empty): key-column
resolution runs first, then the workbook is loaded, then key columns are
validated against the headers, then the data rows are scanned — as the
final conjunct's exhaustive trace shapes show. -/
theorem upsert_manual_empty_error_order (env : UpsertEnv)
    (h1 : env.dataMode = "manual") (h2 : env.matchingColumns = []) :
    (upsertExecute env).result = .error .noMatchingColumns ∧
    (upsertExecute env).trace = [] ∧
    Ev.load ∉ (upsertExecute env).trace ∧
    (∀ env' : UpsertEnv, (upsertExecute env').trace = [] ∨
      (upsertExecute env').trace = [Ev.load] ∨
      (upsertExecute env').trace = [Ev.load, Ev.scan] ∨
      (upsertExecute env').trace = [Ev.load, Ev.scan, Ev.save]) := by
  have hgk : getKeyColumns env = .error .noMatchingColumns := by
    simp [getKeyColumns, h1, h2]
  have hrun : upsertExecute env = ⟨[], env.sheet, .error .noMatchingColumns⟩ := by
    simp only [upsertExecute, hgk]
  refine ⟨by rw [hrun], by rw [hrun], by rw [hrun]; simp, ?_⟩
  intro env'
  rcases upsertExecute_shape env' with ⟨-, ht⟩ | ⟨-, ht | ht | ht⟩
  · exact Or.inr (Or.inr (Or.inr ht))
  · exact Or.inl ht
  · exact Or.inr (Or.inl ht)
  · exact Or.inr (Or.inr (Or.inl ht))

/-- Witness for the amended C6 at a concrete invocation. -/
theorem upsert_manual_empty_error_order_witness :
    (upsertExecute envManualEmpty).result = .error .noMatchingColumns ∧
    (upsertExecute envManualEmpty).trace = [] ∧
    Ev.load ∉ (upsertExecute envManualEmpty).trace ∧
    (∀ env' : UpsertEnv, (upsertExecute env').trace = [] ∨
      (upsertExecute env').trace = [Ev.load] ∨
      (upsertExecute env').trace = [Ev.load, Ev.scan] ∨
      (upsertExecute env').trace = [Ev.load, Ev.scan, Ev.save]) :=
  upsert_manual_empty_error_order envManualEmpty (by decide) (by decide)

/-- C7 counterexample.  The spec claims every validation error is raised
before any sheet mutation *for the current input item*.  At this concrete
raw-mode invocation, the single item expands to a valid record followed by
a record missing its key value: the loop appends the first record's row
and only then raises the missing-key error, so the erroring item has
already mutated the sheet. -/
theorem validation_mid_item_mutation_cex :
    (upsertExecute envRawMixed).result = .error (.missingKeyValue 0 "ID") ∧
    (upsertExecute envRawMixed).sheet =
      [[Value.str "ID"], [Value.str "A2"]] ∧
    (upsertExecute envRawMixed).sheet ≠ envRawMixed.sheet := by
  decide

/-- C7 (amended).  Every validation error is raised before any sheet
mutation for the current *record* is applied, and per-item resolution
errors are raised before any mutation for the current item; mutations
already applied for earlier records (including earlier records of the same
item) and earlier items are retained, never rolled back: a missing-key
record stops the upsert loop with the state exactly as the valid prefix
left it, and an item-resolution failure stops either engine's item loop
with the incoming state returned untouched. -/
theorem validation_before_record_mutation
    (ctx : UpsertCtx) (i : Nat) (st : Sheet × Nat × Nat)
    (rs₁ rs₂ : List Record) (r : Record) (c : String)
    (hpre : ∀ r' ∈ rs₁,
      ctx.keyColumns.find? (fun col => keyMissing r' col) = none)
    (hbad : ctx.keyColumns.find? (fun col => keyMissing r col) = some c)
    (dm : String) (it : ItemEnv) (rest : List ItemEnv) (j : Nat)
    (st2 : Sheet × Nat × Nat) (e : UErr)
    (hres : getRowData j it dm = .error e)
    (dm2 : String) (hR : Nat) (hh : Bool) (hmE hm0 : HeaderMap) (s0 : Sheet)
    (tot : Nat) (it2 : ItemEnv) (rest2 : List ItemEnv) (j2 : Nat) (e2 : UErr)
    (hres2 : getRowData j2 it2 dm2 = .error e2) :
    processRecords ctx i st (rs₁ ++ r :: rs₂) =
      ((processRecords ctx i st rs₁).1, some (.missingKeyValue i c)) ∧
    processItems ctx dm (it :: rest) j st2 = (st2, some e) ∧
    appendLoop dm2 hR hh hmE (it2 :: rest2) j2 s0 hm0 tot =
      ((s0, hm0, tot), some e2) := by
  refine ⟨?_, ?_, ?_⟩
  · induction rs₁ generalizing st with
    | nil =>
        simp only [List.nil_append, processRecords, stepRecord, hbad]
    | cons r' rs₁' ih =>
        have hv' : ctx.keyColumns.find? (fun col => keyMissing r' col) = none :=
          hpre r' (List.mem_cons_self r' rs₁')
        have hstep : ∃ st', stepRecord ctx i st r' = (st', none) := by
          simp only [stepRecord, hv']
          cases ctx.index.lookup (createKey r' ctx.keyColumns) <;>
            exact ⟨_, rfl⟩
        obtain ⟨st', hst'⟩ := hstep
        have hpre' : ∀ r'' ∈ rs₁',
            ctx.keyColumns.find? (fun col => keyMissing r'' col) = none :=
          fun r'' h'' => hpre r'' (List.mem_cons_of_mem r' h'')
        calc processRecords ctx i st ((r' :: rs₁') ++ r :: rs₂)
            = processRecords ctx i st' (rs₁' ++ r :: rs₂) := by
              simp only [List.cons_append, processRecords, hst']
              rfl
          _ = ((processRecords ctx i st' rs₁').1,
                some (.missingKeyValue i c)) := ih st' hpre'
          _ = ((processRecords ctx i st (r' :: rs₁')).1,
                some (.missingKeyValue i c)) := by
              simp only [processRecords, hst']
  · simp only [processItems, hres]
  · simp only [appendLoop, hres2]

/-- Witness for the amended C7 at concrete inputs: a one-column context
where the valid record `ID = A2` is appended before the key-less record
stops the loop, and raw-mode items whose `JSON.parse` failed stop both
item loops with the state untouched. -/
theorem validation_before_record_mutation_witness :
    (processRecords ⟨[("ID", 1)], ["ID"], []⟩ 0 ([[Value.str "ID"]], 0, 0)
        ([[("ID", Value.str "A2")]] ++ [("Name", Value.str "x")] :: []) =
      ((processRecords ⟨[("ID", 1)], ["ID"], []⟩ 0 ([[Value.str "ID"]], 0, 0)
          [[("ID", Value.str "A2")]]).1,
        some (.missingKeyValue 0 "ID")) ∧
    processItems ⟨[("ID", 1)], ["ID"], []⟩ "raw"
        [⟨[], none, .error "bad"⟩] 0 ([[Value.str "ID"]], 0, 0) =
      (([[Value.str "ID"]], 0, 0), some (.invalidJson 0 "bad")) ∧
    appendLoop "raw" 1 true [("ID", 1)] [⟨[], none, .error "bad"⟩] 0
        [[Value.str "ID"]] [] 0 =
      (([[Value.str "ID"]], [], 0), some (.invalidJson 0 "bad"))) :=
  validation_before_record_mutation
    ⟨[("ID", 1)], ["ID"], []⟩ 0 ([[Value.str "ID"]], 0, 0)
    [[("ID", Value.str "A2")]] [] [("Name", Value.str "x")] "ID"
    (by decide) (by decide)
    "raw" ⟨[], none, .error "bad"⟩ [] 0 ([[Value.str "ID"]], 0, 0)
    (.invalidJson 0 "bad") (by decide)
    "raw" 1 true [("ID", 1)] [] [[Value.str "ID"]] 0
    ⟨[], none, .error "bad"⟩ [] 0 (.invalidJson 0 "bad") (by decide)

/-- C9.  No save on error: whenever an upsert or append invocation fails
(any item's resolution or validation error), the upload point is never
reached — the trace contains no save event; on success the single save is
the last event, after the whole item loop. -/
theorem no_save_on_error (e1 : UpsertEnv) (e2 : AppendEnv)
    (e3 : UpsertEnv) (e4 : AppendEnv)
    (h1 : exOk (upsertExecute e1).result = false)
    (h2 : exOk (appendExecute e2).result = false)
    (h3 : exOk (upsertExecute e3).result = true)
    (h4 : exOk (appendExecute e4).result = true) :
    Ev.save ∉ (upsertExecute e1).trace ∧
    Ev.save ∉ (appendExecute e2).trace ∧
    (upsertExecute e3).trace = [Ev.load, Ev.scan, Ev.save] ∧
    (appendExecute e4).trace = [Ev.load, Ev.save] := by
  refine ⟨?_, ?_, ?_, ?_⟩
  · rcases upsertExecute_shape e1 with ⟨hok, -⟩ | ⟨-, ht | ht | ht⟩
    · rw [h1] at hok; cases hok
    · rw [ht]; simp
    · rw [ht]; simp
    · rw [ht]; simp
  · rcases appendExecute_shape e2 with ⟨hok, -⟩ | ⟨-, ht⟩
    · rw [h2] at hok; cases hok
    · rw [ht]; simp
  · rcases upsertExecute_shape e3 with ⟨-, ht⟩ | ⟨hok, -⟩
    · exact ht
    · rw [h3] at hok; cases hok
  · rcases appendExecute_shape e4 with ⟨-, ht⟩ | ⟨hok, -⟩
    · exact ht
    · rw [h4] at hok; cases hok

/-- Witness for C9 at concrete invocations: a failing upsert (manual mode,
no matching columns) and a failing append (bad raw JSON) never reach the
save point; a succeeding upsert and append each save exactly once, last. -/
theorem no_save_on_error_witness :
    Ev.save ∉ (upsertExecute envManualEmpty).trace ∧
    Ev.save ∉ (appendExecute envAppendErr).trace ∧
    (upsertExecute envUpsertOk).trace = [Ev.load, Ev.scan, Ev.save] ∧
    (appendExecute envAppendOk).trace = [Ev.load, Ev.save] :=
  no_save_on_error envManualEmpty envAppendErr envUpsertOk envAppendOk
    (by decide) (by decide) (by decide) (by decide)

/-! ## Helpers about lookups with a dropped binding -/

theorem find?_congr_mem {α : Type} (p q : α → Bool) (l : List α)
    (h : ∀ a ∈ l, p a = q a) : l.find? p = l.find? q := by
  induction l with
  | nil => rfl
  | cons a t ih =>
      simp only [List.find?]
      rw [h a (List.mem_cons_self a t)]
      cases q a
      · exact ih (fun b hb => h b (List.mem_cons_of_mem a hb))
      · rfl

theorem lookup_append_skip {β : Type} (k c : String) (v : β)
    (hne : k ≠ c) :
    ∀ (xs ys : List (String × β)),
    List.lookup c (xs ++ (k, v) :: ys) = List.lookup c (xs ++ ys) := by
  intro xs ys
  induction xs with
  | nil =>
      simp only [List.nil_append, lookup_cons_ite]
      rw [if_neg (by simpa using fun h => hne h.symm)]
  | cons x xs' ih =>
      rcases x with ⟨xk, xv⟩
      simp only [List.cons_append, lookup_cons_ite]
      rw [ih]

/-- C5.  Unmapped-key drop: a record entry whose key is absent from the
header map contributes nothing anywhere — the appended-row buffer and the
in-place row update are identical with or without the entry, and the whole
upsert record step (validation, key construction, decision, mutation,
counters) is unchanged, so no cell ever receives the value and no error is
raised because of the unmapped key.  (`buildNewRow` is the row-construction
path of both the append and the upsert engines.) -/
theorem unmapped_key_drop (hm : HeaderMap) (s : Sheet) (rowNum : Nat)
    (ctx : UpsertCtx) (i : Nat) (st : Sheet × Nat × Nat)
    (r₁ r₂ : Record) (k : String) (v : Value)
    (hk : hm.lookup k = none)
    (hkc : ctx.hm.lookup k = none)
    (hKcols : ∀ c ∈ ctx.keyColumns, (ctx.hm.lookup c).isSome = true) :
    buildNewRow hm (r₁ ++ (k, v) :: r₂) = buildNewRow hm (r₁ ++ r₂) ∧
    applyUpdate s hm rowNum (r₁ ++ (k, v) :: r₂) =
      applyUpdate s hm rowNum (r₁ ++ r₂) ∧
    stepRecord ctx i st (r₁ ++ (k, v) :: r₂) =
      stepRecord ctx i st (r₁ ++ r₂) := by
  have hne : ∀ c ∈ ctx.keyColumns, k ≠ c := by
    intro c hc hkeq
    have := hKcols c hc
    rw [← hkeq, hkc] at this
    cases this
  refine ⟨?_, ?_, ?_⟩
  · simp only [buildNewRow, List.foldl_append, List.foldl_cons, hk]
  · simp only [applyUpdate, List.foldl_append, List.foldl_cons, hk]
  · have hfind : ctx.keyColumns.find?
        (fun col => keyMissing (r₁ ++ (k, v) :: r₂) col) =
        ctx.keyColumns.find? (fun col => keyMissing (r₁ ++ r₂) col) := by
      refine find?_congr_mem _ _ _ (fun c hc => ?_)
      unfold keyMissing
      rw [lookup_append_skip k c v (hne c hc)]
    have hck : createKey (r₁ ++ (k, v) :: r₂) ctx.keyColumns =
        createKey (r₁ ++ r₂) ctx.keyColumns := by
      unfold createKey
      congr 1
      refine List.map_congr_left (fun c hc => ?_)
      unfold keyPart
      rw [lookup_append_skip k c v (hne c hc)]
    have hbn : buildNewRow ctx.hm (r₁ ++ (k, v) :: r₂) =
        buildNewRow ctx.hm (r₁ ++ r₂) := by
      simp only [buildNewRow, List.foldl_append, List.foldl_cons, hkc]
    simp only [stepRecord, hfind, hck]
    cases hfd : ctx.keyColumns.find? (fun col => keyMissing (r₁ ++ r₂) col) with
    | some col => rfl
    | none =>
        dsimp only
        cases hlk : ctx.index.lookup (createKey (r₁ ++ r₂) ctx.keyColumns) with
        | some rowNum' =>
            have hau' : applyUpdate st.1 ctx.hm rowNum' (r₁ ++ (k, v) :: r₂) =
                applyUpdate st.1 ctx.hm rowNum' (r₁ ++ r₂) := by
              simp only [applyUpdate, List.foldl_append, List.foldl_cons, hkc]
            dsimp only
            rw [hau']
        | none =>
            dsimp only
            rw [hbn]

/-- Witness for C5 at concrete inputs: dropping the unmapped entry
`Phone = 555` from a record changes neither the new-row buffer, nor an
in-place update, nor the upsert step. -/
theorem unmapped_key_drop_witness :
    buildNewRow [("Name", 1), ("Email", 2)]
        ([("Name", Value.str "B")] ++ ("Phone", Value.str "555") ::
          [("Email", Value.str "e")]) =
      buildNewRow [("Name", 1), ("Email", 2)]
        ([("Name", Value.str "B")] ++ [("Email", Value.str "e")]) ∧
    applyUpdate [[Value.str "Name"], [Value.str "old"]]
        [("Name", 1), ("Email", 2)] 2
        ([("Name", Value.str "B")] ++ ("Phone", Value.str "555") ::
          [("Email", Value.str "e")]) =
      applyUpdate [[Value.str "Name"], [Value.str "old"]]
        [("Name", 1), ("Email", 2)] 2
        ([("Name", Value.str "B")] ++ [("Email", Value.str "e")]) ∧
    stepRecord ⟨[("Name", 1), ("Email", 2)], ["Name"], [("B", 2)]⟩ 0
        ([[Value.str "Name"], [Value.str "old"]], 0, 0)
        ([("Name", Value.str "B")] ++ ("Phone", Value.str "555") ::
          [("Email", Value.str "e")]) =
      stepRecord ⟨[("Name", 1), ("Email", 2)], ["Name"], [("B", 2)]⟩ 0
        ([[Value.str "Name"], [Value.str "old"]], 0, 0)
        ([("Name", Value.str "B")] ++ [("Email", Value.str "e")]) :=
  unmapped_key_drop [("Name", 1), ("Email", 2)]
    [[Value.str "Name"], [Value.str "old"]] 2
    ⟨[("Name", 1), ("Email", 2)], ["Name"], [("B", 2)]⟩ 0
    ([[Value.str "Name"], [Value.str "old"]], 0, 0)
    [("Name", Value.str "B")] [("Email", Value.str "e")]
    "Phone" (Value.str "555") (by decide) (by decide) (by decide)

/-! ## Lemmas about the append engine -/

theorem foldl_appendRow_spec (f : Record → List (Nat × Value)) :
    ∀ (rs : List Record) (s : Sheet),
    rs.foldl (fun acc r => appendRow acc (f r)) s =
      s ++ rs.map (fun r => materialize (f r)) := by
  intro rs
  induction rs with
  | nil => intro s; simp
  | cons r rest ih =>
      intro s
      rw [List.foldl_cons, ih]
      simp [appendRow, List.append_assoc]

theorem appendLoop_pos_ok_spec (dm : String) (hR : Nat) (hh : Bool)
    (hmE : HeaderMap) :
    ∀ (items : List ItemEnv) (i : Nat) (s : Sheet) (hm : HeaderMap)
      (tot : Nat) (out : Sheet × HeaderMap × Nat),
    i ≠ 0 →
    appendLoop dm hR hh hmE items i s hm tot = (out, none) →
    ∃ rss, resolveItems dm i items = .ok rss ∧
      out = (s ++ rss.flatten.map (fun r => materialize (buildNewRow hm r)),
             hm, tot + rss.flatten.length) := by
  intro items
  induction items with
  | nil =>
      intro i s hm tot out _ h
      simp only [appendLoop, Prod.mk.injEq] at h
      obtain ⟨h1, -⟩ := h
      exact ⟨[], rfl, by simp [← h1]⟩
  | cons it rest ih =>
      intro i s hm tot out hi h
      simp only [appendLoop] at h
      cases hgr : getRowData i it dm with
      | error e =>
          simp only [hgr] at h
          exact Option.noConfusion (congrArg Prod.snd h)
      | ok rs =>
          simp only [hgr] at h
          rw [if_neg (by intro hcon; exact hi hcon.2.1)] at h
          rw [if_neg hi] at h
          rw [foldl_appendRow_spec] at h
          obtain ⟨rss', hres', hout⟩ := ih (i + 1) _ hm _ out (by omega) h
          refine ⟨rs :: rss', ?_, ?_⟩
          · simp only [resolveItems, hgr, hres']
            rfl
          · rw [hout]
            simp only [List.flatten_cons, List.map_append, List.length_append,
              List.length_map, List.append_assoc, Prod.mk.injEq, true_and]
            omega

theorem appendLoop_pos_hm (dm : String) (hR : Nat) (hh : Bool)
    (hmE : HeaderMap) :
    ∀ (items : List ItemEnv) (i : Nat) (s : Sheet) (hm : HeaderMap)
      (tot : Nat),
    i ≠ 0 →
    (appendLoop dm hR hh hmE items i s hm tot).1.2.1 = hm := by
  intro items
  induction items with
  | nil => intro i s hm tot _; rfl
  | cons it rest ih =>
      intro i s hm tot hi
      simp only [appendLoop]
      cases hgr : getRowData i it dm with
      | error e => rfl
      | ok rs =>
          dsimp only
          rw [if_neg (by intro hcon; exact hi hcon.2.1)]
          rw [if_neg hi]
          exact ih (i + 1) _ hm _ (by omega)

theorem appendLoop_pos_preserve (dm : String) (hR : Nat) (hh : Bool)
    (hmE : HeaderMap) :
    ∀ (items : List ItemEnv) (i : Nat) (s : Sheet) (hm : HeaderMap)
      (tot : Nat) (m : Nat),
    i ≠ 0 → m ≤ s.length →
    getSheetRow (appendLoop dm hR hh hmE items i s hm tot).1.1 m =
      getSheetRow s m := by
  intro items
  induction items with
  | nil => intro i s hm tot m _ _; rfl
  | cons it rest ih =>
      intro i s hm tot m hi hm1
      simp only [appendLoop]
      cases hgr : getRowData i it dm with
      | error e => rfl
      | ok rs =>
          dsimp only
          rw [if_neg (by intro hcon; exact hi hcon.2.1)]
          rw [if_neg hi]
          dsimp only
          rw [foldl_appendRow_spec]
          rw [ih (i + 1) _ hm _ m (by omega)
            (by rw [List.length_append]; omega)]
          exact getSheetRow_append_list s _ m hm1

theorem bootstrapHeaders_hm (hR : Nat) :
    ∀ (ks : List String) (c : Nat) (s : Sheet) (hm0 : HeaderMap),
    (bootstrapHeaders hR ks c (s, hm0)).2 = bootMap ks c ++ hm0 := by
  intro ks
  induction ks with
  | nil => intro c s hm0; rfl
  | cons k ks' ih =>
      intro c s hm0
      simp only [bootstrapHeaders, bootMap]
      rw [ih]
      simp

theorem bootstrapHeaders_len_ge (hR : Nat) :
    ∀ (ks : List String) (c : Nat) (p : Sheet × HeaderMap),
    p.1.length ≤ (bootstrapHeaders hR ks c p).1.length := by
  intro ks
  induction ks with
  | nil => intro c p; exact le_refl _
  | cons k ks' ih =>
      intro c p
      refine le_trans ?_ (ih (c + 1) _)
      simp only [length_setCell]
      omega

theorem bootstrapHeaders_hR_le (hR : Nat) :
    ∀ (ks : List String) (c : Nat) (p : Sheet × HeaderMap),
    ks ≠ [] → hR ≤ (bootstrapHeaders hR ks c p).1.length := by
  intro ks
  cases ks with
  | nil => intro c p h; exact absurd rfl h
  | cons k ks' =>
      intro c p _
      simp only [bootstrapHeaders]
      refine le_trans ?_ (bootstrapHeaders_len_ge hR ks' (c + 1) _)
      simp only [length_setCell]
      omega

theorem bootstrapHeaders_getCell_lt (hR : Nat) (h1 : 1 ≤ hR) :
    ∀ (ks : List String) (c : Nat) (p : Sheet × HeaderMap) (m : Nat),
    m < c →
    getCell (getSheetRow (bootstrapHeaders hR ks c p).1 hR) m =
      getCell (getSheetRow p.1 hR) m := by
  intro ks
  induction ks with
  | nil => intro c p m _; rfl
  | cons k ks' ih =>
      intro c p m hm
      simp only [bootstrapHeaders]
      rw [ih (c + 1) _ m (by omega)]
      rw [getSheetRow_setCell_self p.1 hR c (.str k) h1]
      exact getCell_setCellR_ne _ c m _ (by omega) (by omega)

theorem bootstrapHeaders_getCell (hR : Nat) (h1 : 1 ≤ hR) :
    ∀ (ks : List String) (c : Nat) (p : Sheet × HeaderMap) (j : Nat)
      (hj : j < ks.length),
    1 ≤ c →
    getCell (getSheetRow (bootstrapHeaders hR ks c p).1 hR) (c + j) =
      .str (ks.get ⟨j, hj⟩) := by
  intro ks
  induction ks with
  | nil => intro c p j hj _; cases hj
  | cons k ks' ih =>
      intro c p j hj hc
      cases j with
      | zero =>
          simp only [bootstrapHeaders, Nat.add_zero]
          rw [bootstrapHeaders_getCell_lt hR h1 ks' (c + 1) _ c (by omega)]
          rw [getSheetRow_setCell_self p.1 hR c (.str k) h1]
          rw [getCell_setCellR_self _ c _ hc]
          rfl
      | succ j' =>
          have : c + (j' + 1) = (c + 1) + j' := by omega
          rw [this]
          simp only [bootstrapHeaders]
          rw [ih (c + 1) _ j' (by simpa using hj) (by omega)]
          rfl

theorem rowHasHeaders_hR_le (s : Sheet) (hR : Nat) (h1 : 1 ≤ hR)
    (h : rowHasHeaders (getSheetRow s hR) = true) : hR ≤ s.length := by
  by_contra hcon
  have hout : getSheetRow s hR = [] := by
    unfold getSheetRow
    rw [if_neg (by omega : ¬ hR = 0), getD_eq_getElem?,
      List.getElem?_eq_none (by omega : s.length ≤ hR - 1)]
    rfl
  rw [hout] at h
  cases h

theorem appendExecute_sheet_eq (env : AppendEnv) :
    (appendExecute env).sheet =
      (appendLoop env.dataMode (resolveHeaderRow env.headerRowOpt)
        (rowHasHeaders (getSheetRow env.sheet
          (resolveHeaderRow env.headerRowOpt)))
        (headerMapOf (getSheetRow env.sheet
          (resolveHeaderRow env.headerRowOpt)))
        env.items 0 env.sheet [] 0).1.1 := by
  cases hal : appendLoop env.dataMode (resolveHeaderRow env.headerRowOpt)
      (rowHasHeaders (getSheetRow env.sheet (resolveHeaderRow env.headerRowOpt)))
      (headerMapOf (getSheetRow env.sheet (resolveHeaderRow env.headerRowOpt)))
      env.items 0 env.sheet [] 0 with
  | mk out err =>
      obtain ⟨s1, hm1, tot⟩ := out
      cases err with
      | none => simp only [appendExecute, hal]
      | some e => simp only [appendExecute, hal]

theorem appendExecute_hm_eq (env : AppendEnv) :
    (appendExecute env).headerMap =
      (appendLoop env.dataMode (resolveHeaderRow env.headerRowOpt)
        (rowHasHeaders (getSheetRow env.sheet
          (resolveHeaderRow env.headerRowOpt)))
        (headerMapOf (getSheetRow env.sheet
          (resolveHeaderRow env.headerRowOpt)))
        env.items 0 env.sheet [] 0).1.2.1 := by
  cases hal : appendLoop env.dataMode (resolveHeaderRow env.headerRowOpt)
      (rowHasHeaders (getSheetRow env.sheet (resolveHeaderRow env.headerRowOpt)))
      (headerMapOf (getSheetRow env.sheet (resolveHeaderRow env.headerRowOpt)))
      env.items 0 env.sheet [] 0 with
  | mk out err =>
      obtain ⟨s1, hm1, tot⟩ := out
      cases err with
      | none => simp only [appendExecute, hal]
      | some e => simp only [appendExecute, hal]

theorem appendExecute_ok_inv (env : AppendEnv) (res : AppendResult)
    (hok : (appendExecute env).result = .ok res) :
    (appendLoop env.dataMode (resolveHeaderRow env.headerRowOpt)
      (rowHasHeaders (getSheetRow env.sheet
        (resolveHeaderRow env.headerRowOpt)))
      (headerMapOf (getSheetRow env.sheet
        (resolveHeaderRow env.headerRowOpt)))
      env.items 0 env.sheet [] 0).2 = none ∧
    res = ⟨(appendLoop env.dataMode (resolveHeaderRow env.headerRowOpt)
      (rowHasHeaders (getSheetRow env.sheet
        (resolveHeaderRow env.headerRowOpt)))
      (headerMapOf (getSheetRow env.sheet
        (resolveHeaderRow env.headerRowOpt)))
      env.items 0 env.sheet [] 0).1.2.2, env.sheetName⟩ := by
  cases hal : appendLoop env.dataMode (resolveHeaderRow env.headerRowOpt)
      (rowHasHeaders (getSheetRow env.sheet (resolveHeaderRow env.headerRowOpt)))
      (headerMapOf (getSheetRow env.sheet (resolveHeaderRow env.headerRowOpt)))
      env.items 0 env.sheet [] 0 with
  | mk out err =>
      obtain ⟨s1, hm1, tot⟩ := out
      cases err with
      | none =>
          have hrun : appendExecute env =
              ⟨[Ev.load, Ev.save], s1, hm1, .ok ⟨tot, env.sheetName⟩⟩ := by
            simp only [appendExecute, hal]
          rw [hrun] at hok
          simp only [Except.ok.injEq] at hok
          exact ⟨rfl, hok.symm⟩
      | some e =>
          have hrun : appendExecute env = ⟨[Ev.load], s1, hm1, .error e⟩ := by
            simp only [appendExecute, hal]
          rw [hrun] at hok
          cases hok

/-- C4.  One-time header bootstrap: appending to a sheet whose designated
header row has no non-blank cell, with a first item resolving to a
non-empty record list, writes the first record's keys into header columns
`1..N` in key order, uses the header map so populated — and it alone — for
every record of every item (the final sheet is the bootstrapped sheet plus
one appended row per resolved record, all built with that same map, and the
run's final header map is still exactly the bootstrap map); if headers
already exist, no header-row cell is ever mutated. -/
theorem append_header_bootstrap_once
    (envB : AppendEnv) (resB : AppendResult) (it0 : ItemEnv)
    (rest : List ItemEnv) (r : Record) (rs : List Record)
    (hitems : envB.items = it0 :: rest)
    (hres0 : getRowData 0 it0 envB.dataMode = .ok (r :: rs))
    (hnh : rowHasHeaders (getSheetRow envB.sheet
      (resolveHeaderRow envB.headerRowOpt)) = false)
    (hok : (appendExecute envB).result = .ok resB)
    (envH : AppendEnv)
    (hhas : rowHasHeaders (getSheetRow envH.sheet
      (resolveHeaderRow envH.headerRowOpt)) = true) :
    (appendExecute envB).headerMap = bootMap (r.map Prod.fst) 1 ∧
    (∀ j (hj : j < (r.map Prod.fst).length),
      getCell (getSheetRow (appendExecute envB).sheet
        (resolveHeaderRow envB.headerRowOpt)) (j + 1) =
        .str ((r.map Prod.fst).get ⟨j, hj⟩)) ∧
    (∃ rss, resolveItems envB.dataMode 0 envB.items = .ok rss ∧
      rss.headD [] = r :: rs ∧
      (appendExecute envB).sheet =
        (bootstrapHeaders (resolveHeaderRow envB.headerRowOpt)
          (r.map Prod.fst) 1 (envB.sheet, [])).1 ++
        rss.flatten.map (fun rec =>
          materialize (buildNewRow (bootMap (r.map Prod.fst) 1) rec)) ∧
      resB.rowsAdded = rss.flatten.length) ∧
    getSheetRow (appendExecute envH).sheet
      (resolveHeaderRow envH.headerRowOpt) =
      getSheetRow envH.sheet (resolveHeaderRow envH.headerRowOpt) := by
  have h1R : 1 ≤ resolveHeaderRow envB.headerRowOpt :=
    one_le_resolveHeaderRow _
  have hB2 : (bootstrapHeaders (resolveHeaderRow envB.headerRowOpt)
      (r.map Prod.fst) 1 (envB.sheet, [])).2 = bootMap (r.map Prod.fst) 1 := by
    rw [bootstrapHeaders_hm]
    simp
  have hloop : appendLoop envB.dataMode (resolveHeaderRow envB.headerRowOpt)
      (rowHasHeaders (getSheetRow envB.sheet
        (resolveHeaderRow envB.headerRowOpt)))
      (headerMapOf (getSheetRow envB.sheet
        (resolveHeaderRow envB.headerRowOpt)))
      envB.items 0 envB.sheet [] 0 =
      appendLoop envB.dataMode (resolveHeaderRow envB.headerRowOpt)
        (rowHasHeaders (getSheetRow envB.sheet
          (resolveHeaderRow envB.headerRowOpt)))
        (headerMapOf (getSheetRow envB.sheet
          (resolveHeaderRow envB.headerRowOpt)))
        rest 1
        ((bootstrapHeaders (resolveHeaderRow envB.headerRowOpt)
            (r.map Prod.fst) 1 (envB.sheet, [])).1 ++
          (r :: rs).map (fun rec => materialize
            (buildNewRow (bootMap (r.map Prod.fst) 1) rec)))
        (bootMap (r.map Prod.fst) 1)
        (0 + (r :: rs).length) := by
    rw [hitems]
    simp only [appendLoop, hres0]
    rw [if_pos ⟨hnh, by simp, by simp⟩]
    rw [foldl_appendRow_spec]
    rw [show headKeys (r :: rs) = r.map Prod.fst from rfl]
    rw [hB2]
  have hinv := appendExecute_ok_inv envB resB hok
  rw [hloop] at hinv
  cases halr : appendLoop envB.dataMode (resolveHeaderRow envB.headerRowOpt)
      (rowHasHeaders (getSheetRow envB.sheet
        (resolveHeaderRow envB.headerRowOpt)))
      (headerMapOf (getSheetRow envB.sheet
        (resolveHeaderRow envB.headerRowOpt)))
      rest 1
      ((bootstrapHeaders (resolveHeaderRow envB.headerRowOpt)
          (r.map Prod.fst) 1 (envB.sheet, [])).1 ++
        (r :: rs).map (fun rec => materialize
          (buildNewRow (bootMap (r.map Prod.fst) 1) rec)))
      (bootMap (r.map Prod.fst) 1)
      (0 + (r :: rs).length) with
  | mk out2 err2 =>
      rw [halr] at hinv
      obtain ⟨herr2, hres⟩ := hinv
      dsimp only at herr2
      subst herr2
      obtain ⟨rssR, hresR, hout⟩ := appendLoop_pos_ok_spec
        envB.dataMode (resolveHeaderRow envB.headerRowOpt)
        (rowHasHeaders (getSheetRow envB.sheet
          (resolveHeaderRow envB.headerRowOpt)))
        (headerMapOf (getSheetRow envB.sheet
          (resolveHeaderRow envB.headerRowOpt)))
        rest 1 _ _ _ out2 (by omega) halr
      have hsheetB : (appendExecute envB).sheet =
          (bootstrapHeaders (resolveHeaderRow envB.headerRowOpt)
            (r.map Prod.fst) 1 (envB.sheet, [])).1 ++
          (((r :: rs) :: rssR).flatten.map (fun rec =>
            materialize (buildNewRow (bootMap (r.map Prod.fst) 1) rec))) := by
        rw [appendExecute_sheet_eq, hloop, halr]
        dsimp only
        rw [hout]
        simp [List.flatten_cons, List.map_append, List.append_assoc]
      refine ⟨?_, ?_, ?_, ?_⟩
      · rw [appendExecute_hm_eq, hloop, halr]
        dsimp only
        rw [hout]
      · intro j hj
        have hks : (r.map Prod.fst) ≠ [] := by
          intro hcon
          rw [hcon] at hj
          cases hj
        have hle : resolveHeaderRow envB.headerRowOpt ≤
            (bootstrapHeaders (resolveHeaderRow envB.headerRowOpt)
              (r.map Prod.fst) 1 (envB.sheet, [])).1.length :=
          bootstrapHeaders_hR_le _ _ 1 _ hks
        rw [hsheetB,
          getSheetRow_append_list _ _ _ hle,
          show j + 1 = 1 + j from by omega]
        exact bootstrapHeaders_getCell _ h1R (r.map Prod.fst) 1 _ j hj
          (le_refl 1)
      · refine ⟨(r :: rs) :: rssR, ?_, rfl, hsheetB, ?_⟩
        · rw [hitems]
          simp only [resolveItems, hres0, hresR]
          rfl
        · rw [hres]
          dsimp only
          rw [hout]
          dsimp only
          simp only [List.flatten_cons, List.length_append]
          omega
      · have h1R' : 1 ≤ resolveHeaderRow envH.headerRowOpt :=
          one_le_resolveHeaderRow _
        have hle : resolveHeaderRow envH.headerRowOpt ≤ envH.sheet.length :=
          rowHasHeaders_hR_le envH.sheet _ h1R' hhas
        rw [appendExecute_sheet_eq]
        cases hit : envH.items with
        | nil => rfl
        | cons it restH =>
            simp only [appendLoop]
            cases hgr : getRowData 0 it envH.dataMode with
            | error e => rfl
            | ok rs0 =>
                dsimp only
                rw [if_neg (by intro hcon; rw [hhas] at hcon; simp at hcon)]
                rw [if_pos True.intro]
                dsimp only
                rw [foldl_appendRow_spec]
                rw [appendLoop_pos_preserve _ _ _ _ restH 1 _ _ _ _ (by omega)
                  (by rw [List.length_append]; omega)]
                exact getSheetRow_append_list _ _ _ hle

/-- Witness for C4 at concrete invocations: appending
`{Name: "A", Email: "a@x.com"}` to a blank sheet leaves the bootstrap
header map `Name -> 1, Email -> 2` as the run's header map, and appending
to a sheet with existing headers `Name, Email` leaves the header row
untouched. -/
theorem append_header_bootstrap_once_witness :
    (appendExecute envAppendOk).headerMap = [("Email", 2), ("Name", 1)] ∧
    getSheetRow (appendExecute envAppendHdr).sheet
      (resolveHeaderRow envAppendHdr.headerRowOpt) =
      getSheetRow envAppendHdr.sheet
        (resolveHeaderRow envAppendHdr.headerRowOpt) :=
  ⟨by
    have h := (append_header_bootstrap_once envAppendOk ⟨1, "Sheet1"⟩
      ⟨[("Name", Value.str "A"), ("Email", Value.str "a@x.com")], none,
        .error "unused"⟩
      [] [("Name", Value.str "A"), ("Email", Value.str "a@x.com")] []
      (by decide) (by decide) (by decide) (by decide)
      envAppendHdr (by decide)).1
    rw [h]
    decide,
   (append_header_bootstrap_once envAppendOk ⟨1, "Sheet1"⟩
      ⟨[("Name", Value.str "A"), ("Email", Value.str "a@x.com")], none,
        .error "unused"⟩
      [] [("Name", Value.str "A"), ("Email", Value.str "a@x.com")] []
      (by decide) (by decide) (by decide) (by decide)
      envAppendHdr (by decide)).2.2.2⟩

theorem buildNewRow_nil (r : Record) : buildNewRow [] r = [] := by
  unfold buildNewRow
  induction r with
  | nil => rfl
  | cons kv rest ih => simp only [List.foldl_cons, List.lookup_nil]; exact ih

/-- C10 counterexample.  The claim's hypothesis "header row has no
non-blank cell" is the engine's own trim-based test and admits a
whitespace-only header cell; at this concrete invocation (header `" "`,
first item resolving to no records) the bootstrap is indeed skipped, but
the header map is built from the existing whitespace name and is NOT
empty, and the second item's record is written into column 1 — not as an
entirely blank row — while rowsAdded still counts it. -/
theorem append_blank_trim_header_cex :
    rowHasHeaders (getSheetRow envWsHeader.sheet 1) = false ∧
    getRowData 0 (envWsHeader.items.headD ⟨[], none, .error ""⟩)
      envWsHeader.dataMode = .ok [] ∧
    (appendExecute envWsHeader).result = .ok ⟨1, "S"⟩ ∧
    (appendExecute envWsHeader).headerMap = [(" ", 1)] ∧
    (appendExecute envWsHeader).headerMap ≠ [] ∧
    (appendExecute envWsHeader).sheet = [[Value.str " "], [Value.str "x"]] ∧
    getCell (getSheetRow (appendExecute envWsHeader).sheet 2) 1 ≠
      Value.null := by
  decide

/-- C10 (amended).  If the designated header row holds no cell value at
all and the first item resolves to an empty record list, no header
bootstrap ever occurs for the whole invocation — not even from a later
item's first record: the header map stays empty, every record of every
subsequent item is appended as an entirely blank row, and rowsAdded still
counts all such records. -/
theorem append_empty_header_no_bootstrap (env : AppendEnv)
    (res : AppendResult) (it0 : ItemEnv) (rest : List ItemEnv)
    (hitems : env.items = it0 :: rest)
    (hhdr : headerEntries (getSheetRow env.sheet
      (resolveHeaderRow env.headerRowOpt)) = [])
    (hres0 : getRowData 0 it0 env.dataMode = .ok [])
    (hok : (appendExecute env).result = .ok res) :
    (appendExecute env).headerMap = [] ∧
    ∃ rss, resolveItems env.dataMode 0 env.items = .ok rss ∧
      rss.headD [] = [] ∧
      (appendExecute env).sheet =
        env.sheet ++ List.replicate rss.flatten.length [] ∧
      res.rowsAdded = rss.flatten.length := by
  have hmE0 : headerMapOf (getSheetRow env.sheet
      (resolveHeaderRow env.headerRowOpt)) = [] := by
    unfold headerMapOf
    rw [hhdr]
    rfl
  have hloop : appendLoop env.dataMode (resolveHeaderRow env.headerRowOpt)
      (rowHasHeaders (getSheetRow env.sheet
        (resolveHeaderRow env.headerRowOpt)))
      (headerMapOf (getSheetRow env.sheet
        (resolveHeaderRow env.headerRowOpt)))
      env.items 0 env.sheet [] 0 =
      appendLoop env.dataMode (resolveHeaderRow env.headerRowOpt)
        (rowHasHeaders (getSheetRow env.sheet
          (resolveHeaderRow env.headerRowOpt)))
        (headerMapOf (getSheetRow env.sheet
          (resolveHeaderRow env.headerRowOpt)))
        rest 1 env.sheet
        (headerMapOf (getSheetRow env.sheet
          (resolveHeaderRow env.headerRowOpt)))
        (0 + ([] : List Record).length) := by
    rw [hitems]
    simp only [appendLoop, hres0]
    rw [if_neg (by simp)]
    rw [if_pos True.intro]
    rfl
  have hinv := appendExecute_ok_inv env res hok
  rw [hloop] at hinv
  cases halr : appendLoop env.dataMode (resolveHeaderRow env.headerRowOpt)
      (rowHasHeaders (getSheetRow env.sheet
        (resolveHeaderRow env.headerRowOpt)))
      (headerMapOf (getSheetRow env.sheet
        (resolveHeaderRow env.headerRowOpt)))
      rest 1 env.sheet
      (headerMapOf (getSheetRow env.sheet
        (resolveHeaderRow env.headerRowOpt)))
      (0 + ([] : List Record).length) with
  | mk out2 err2 =>
      rw [halr] at hinv
      obtain ⟨herr2, hres⟩ := hinv
      dsimp only at herr2
      subst herr2
      obtain ⟨rssR, hresR, hout⟩ := appendLoop_pos_ok_spec
        env.dataMode (resolveHeaderRow env.headerRowOpt)
        (rowHasHeaders (getSheetRow env.sheet
          (resolveHeaderRow env.headerRowOpt)))
        (headerMapOf (getSheetRow env.sheet
          (resolveHeaderRow env.headerRowOpt)))
        rest 1 _ _ _ out2 (by omega) halr
      refine ⟨?_, ([] : List Record) :: rssR, ?_, rfl, ?_, ?_⟩
      · rw [appendExecute_hm_eq, hloop, halr]
        dsimp only
        rw [hout]
        dsimp only
        exact hmE0
      · rw [hitems]
        simp only [resolveItems, hres0, hresR]
        rfl
      · rw [appendExecute_sheet_eq, hloop, halr]
        dsimp only
        rw [hout]
        dsimp only
        simp only [List.flatten_cons, List.nil_append]
        congr 1
        calc rssR.flatten.map (fun rec => materialize (buildNewRow
              (headerMapOf (getSheetRow env.sheet
                (resolveHeaderRow env.headerRowOpt))) rec))
            = rssR.flatten.map (fun _ => ([] : Row)) := by
              refine List.map_congr_left (fun rec _ => ?_)
              rw [hmE0, buildNewRow_nil]
              rfl
          _ = List.replicate rssR.flatten.length [] :=
              List.map_const' _ _
      · rw [hres]
        dsimp only
        rw [hout]
        dsimp only
        simp only [List.flatten_cons, List.nil_append, List.length_nil]
        omega

/-- Witness for the amended C10 at a concrete invocation: entirely empty
sheet, first item raw `[]`, second item one record — the header map stays
empty, the one appended row is blank, rowsAdded is 1. -/
theorem append_empty_header_no_bootstrap_witness :
    (appendExecute envEmptyHeader).headerMap = [] ∧
    ∃ rss, resolveItems envEmptyHeader.dataMode 0 envEmptyHeader.items =
        .ok rss ∧
      rss.headD [] = [] ∧
      (appendExecute envEmptyHeader).sheet =
        envEmptyHeader.sheet ++ List.replicate rss.flatten.length [] ∧
      (⟨1, "S"⟩ : AppendResult).rowsAdded = rss.flatten.length :=
  append_empty_header_no_bootstrap envEmptyHeader ⟨1, "S"⟩
    ⟨[], none, .ok (.arr [])⟩
    [⟨[], none, .ok (.arr [[("A", Value.str "x")]])⟩]
    (by decide) (by decide) (by decide) (by decide)

/-! ## Helpers about single-column keys -/

theorem lookup_self_single {β : Type} (c : String) (x : β) :
    List.lookup c [(c, x)] = some x := by
  rw [lookup_cons_ite, if_pos (by simp)]

theorem createKey_single (c : String) (x : Value) (hx : x ≠ .null) :
    createKey [(c, x)] [c] = valueToString x := by
  unfold createKey
  have h2 : keyPart [(c, x)] c = valueToString x := by
    unfold keyPart
    rw [lookup_self_single]
    cases x with
    | null => exact absurd rfl hx
    | str s => rfl
    | num n => rfl
    | boolean b => rfl
  show String.intercalate "|" [keyPart [(c, x)] c] = valueToString x
  rw [h2]
  rfl

/-- C8.  String-based key matching: the key index stores
`String(cell value)` for the stored row, `createKey` is `String(record
value)`, and the match decision is exactly string equality of the two —
so the numeric key `123` matches a stored string `"123"` (the engine
updates), while a key whose string form is `"123.0"` does not match a
stored `"123"` (the engine appends): no numeric normalization happens. -/
theorem upsert_string_key_matching (v w : Value) (hv : v ≠ .null)
    (hw1 : w ≠ .null) (hw2 : valueToString w ≠ "") :
    buildIndex [[Value.str "ID"], [w]] [("ID", 1)] ["ID"] 1 =
      [(valueToString w, 2)] ∧
    createKey [("ID", v)] ["ID"] = valueToString v ∧
    matchedB ⟨[("ID", 1)], ["ID"], [(valueToString w, 2)]⟩ [("ID", v)] =
      (valueToString v == valueToString w) ∧
    (upsertExecute (singleKeyEnv (Value.num 123) (Value.str "123"))).result =
      .ok ⟨1, 0, "S"⟩ ∧
    (upsertExecute (singleKeyEnv (Value.str "123.0") (Value.str "123"))).result =
      .ok ⟨0, 1, "S"⟩ := by
  refine ⟨?_, createKey_single "ID" v hv, ?_, by decide, by decide⟩
  · unfold buildIndex
    have hr : List.range' 2 (([[Value.str "ID"], [w]] : Sheet).length - 1) =
        [2] := rfl
    rw [hr]
    simp only [List.foldl_cons, List.foldl_nil, indexStep]
    have hrow : ((["ID"] : List String).map (fun col =>
        (col, getCell (getSheetRow [[Value.str "ID"], [w]] 2)
          (((([("ID", 1)] : HeaderMap)).lookup col).getD 0)))) =
        [("ID", w)] := by
      simp only [List.map_cons, List.map_nil]
      rw [show getCell (getSheetRow [[Value.str "ID"], [w]] 2)
        (((([("ID", 1)] : HeaderMap)).lookup "ID").getD 0) = w from rfl]
    rw [hrow, createKey_single "ID" w hw1]
    rw [if_pos ⟨hw2, by rw [show emptyKeyOf ["ID"] = "" from rfl]; exact hw2⟩]
  · unfold matchedB
    show (List.lookup (createKey [("ID", v)] ["ID"])
      [(valueToString w, 2)]).isSome = (valueToString v == valueToString w)
    rw [createKey_single "ID" v hv, lookup_cons_ite]
    cases h : valueToString v == valueToString w
    · simp
    · simp

/-- Witness for C8 at concrete values: stored cell `"123"` indexes as key
`"123"`, the numeric record key `123` builds the same string key and the
decision is a match. -/
theorem upsert_string_key_matching_witness :
    buildIndex [[Value.str "ID"], [Value.str "123"]] [("ID", 1)] ["ID"] 1 =
      [("123", 2)] ∧
    createKey [("ID", Value.num 123)] ["ID"] = "123" ∧
    matchedB ⟨[("ID", 1)], ["ID"], [("123", 2)]⟩ [("ID", Value.num 123)] =
      ("123" == "123") ∧
    (upsertExecute (singleKeyEnv (Value.num 123) (Value.str "123"))).result =
      .ok ⟨1, 0, "S"⟩ ∧
    (upsertExecute (singleKeyEnv (Value.str "123.0") (Value.str "123"))).result =
      .ok ⟨0, 1, "S"⟩ :=
  upsert_string_key_matching (Value.num 123) (Value.str "123")
    (by decide) (by decide) (by decide)

/-- C3.  Empty-key exclusion: a stored data row whose key cells are all
blank (`null` or the empty string) never enters the key index, so no
incoming record can match it, and the row survives the whole invocation
unchanged (incoming records append rather than update against it). -/
theorem upsert_empty_key_exclusion (env : UpsertEnv) (n : Nat)
    (_hn1 : 1 ≤ n) (hn2 : n ≤ env.sheet.length)
    (hempty : ∀ c ∈ (ctxOf env).keyColumns,
      getCell (getSheetRow env.sheet n) (((ctxOf env).hm.lookup c).getD 0) =
        .null ∨
      getCell (getSheetRow env.sheet n) (((ctxOf env).hm.lookup c).getD 0) =
        .str "") :
    (∀ k, (ctxOf env).index.lookup k ≠ some n) ∧
    getSheetRow (upsertExecute env).sheet n = getSheetRow env.sheet n := by
  have hexc : ∀ k, (ctxOf env).index.lookup k ≠ some n := by
    cases hK : getKeyColumns env with
    | error e =>
        intro k h
        simp [ctxOf, hK] at h
    | ok K =>
        rw [ctxOf_eq env K hK] at hempty ⊢
        simp only at hempty ⊢
        exact buildIndex_excludes env.sheet _ K _ n hempty
  exact ⟨hexc, upsertExecute_sheet_preserve env n hn2 hexc⟩

/-- Witness for C3 at a concrete invocation: data row 2 of the sheet has an
empty `ID` cell; an incoming record (with an empty-string key of its own)
appends, and row 2 keeps its value `keepme`. -/
theorem upsert_empty_key_exclusion_witness :
    (1 ≤ 2 ∧ 2 ≤ envEmptyKey.sheet.length ∧
      (∀ c ∈ (ctxOf envEmptyKey).keyColumns,
        getCell (getSheetRow envEmptyKey.sheet 2)
          (((ctxOf envEmptyKey).hm.lookup c).getD 0) = .null ∨
        getCell (getSheetRow envEmptyKey.sheet 2)
          (((ctxOf envEmptyKey).hm.lookup c).getD 0) = .str "")) ∧
    ((∀ k, (ctxOf envEmptyKey).index.lookup k ≠ some 2) ∧
      getSheetRow (upsertExecute envEmptyKey).sheet 2 =
        getSheetRow envEmptyKey.sheet 2) ∧
    (upsertExecute envEmptyKey).result = .ok ⟨0, 1, "S"⟩ :=
  ⟨⟨by decide, by decide, by decide⟩,
   upsert_empty_key_exclusion envEmptyKey 2 (by decide) (by decide) (by decide),
   by decide⟩

end SpExcel
